/-
Verification of the mini-redis core against its specification.

The development shallowly embeds the relevant C++ sources:
  * src/storage/kv_store.cpp      (KVStore: string/hash stores, expirations,
                                   LRU recency list, RDB snapshot save/load)
  * src/storage/aof_logger.cpp    (AOF append filter, wire encoding, replay)
  * src/server/replication.cpp    (replication fan-out filter)
  * src/protocol/resp_parser.cpp  (incremental RESP request parser)
  * src/protocol/parser.cpp       (verb -> command-kind resolver)
  * src/protocol/resp_utils.cpp   (reply serializers)
  * src/server/commands.cpp       (command handlers)

Conventions of the embedding:
  * `std::unordered_map` becomes an association list (`List (String × α)`)
    with unique keys; `aset` replaces in place or appends, `aerase` removes
    every pair with the key (at most one under the no-duplicate invariant).
  * `time_t`/`time(nullptr)` becomes an explicit `now : Int` argument; a
    single C++ call sequence that reads the clock is modelled with one `now`.
  * The `lru_map_` (key -> list-iterator index) is modelled by its domain,
    a `List String`; erasing through a stored iterator is modelled by
    `List.erase` of the key, which coincides with the C++ behaviour whenever
    the key occurs at most once in the recency list.
  * Mutating member functions become functions `KVStore -> ... -> KVStore`
    (paired with their return value where the C++ returns one).
-/
import Mathlib

set_option maxRecDepth 8000

/-! ## Association-list primitives (model of `std::unordered_map`) -/

/-- Lookup in an association list (`map.find(k)`), first match. -/
def alookup {α : Type} : List (String × α) → String → Option α
  | [], _ => none
  | (k', v) :: t, k => if k' = k then some v else alookup t k

/-- In-place overwrite or append (`map[k] = v`). -/
def aset {α : Type} : List (String × α) → String → α → List (String × α)
  | [], k, v => [(k, v)]
  | (k', v') :: t, k, v => if k' = k then (k, v) :: t else (k', v') :: aset t k v

/-- Erase every pair with the key (`map.erase(k)`; at most one pair under
the no-duplicate-key invariant). -/
def aerase {α : Type} : List (String × α) → String → List (String × α)
  | [], _ => []
  | (k', v) :: t, k => if k' = k then aerase t k else (k', v) :: aerase t k

/-- Domain of an association list. -/
def adom {α : Type} (l : List (String × α)) : List String := l.map (·.1)

@[simp] theorem alookup_nil {α : Type} (k : String) : alookup ([] : List (String × α)) k = none := rfl

@[simp] theorem alookup_cons {α : Type} (k' k : String) (v : α) (t : List (String × α)) :
    alookup ((k', v) :: t) k = if k' = k then some v else alookup t k := rfl

theorem alookup_aset {α : Type} (l : List (String × α)) (k k' : String) (v : α) :
    alookup (aset l k v) k' = if k = k' then some v else alookup l k' := by
  induction l with
  | nil => by_cases h : k = k' <;> simp [aset, h]
  | cons p t ih =>
    obtain ⟨a, b⟩ := p
    by_cases hak : a = k
    · subst hak
      by_cases h : a = k' <;> simp [aset, h]
    · by_cases h : a = k'
      · subst h
        have : ¬ k = a := fun hh => hak hh.symm
        simp [aset, hak, this]
      · simp [aset, hak, h, ih]

theorem alookup_aerase {α : Type} (l : List (String × α)) (k k' : String) :
    alookup (aerase l k) k' = if k = k' then none else alookup l k' := by
  induction l with
  | nil => by_cases h : k = k' <;> simp [aerase, h]
  | cons p t ih =>
    obtain ⟨a, b⟩ := p
    simp only [aerase]
    by_cases hak : a = k
    · rw [if_pos hak, ih]
      by_cases h : k = k' <;> simp [h, alookup, hak ▸ h]
    · rw [if_neg hak]
      by_cases h : a = k'
      · subst h
        have hka : ¬ k = a := fun hh => hak hh.symm
        simp [alookup, hka]
      · simp [alookup, h, ih]

theorem mem_adom_iff_isSome {α : Type} (l : List (String × α)) (k : String) :
    k ∈ adom l ↔ (alookup l k).isSome := by
  induction l with
  | nil => simp [adom]
  | cons p t ih =>
    obtain ⟨a, b⟩ := p
    have hcons : adom ((a, b) :: t) = a :: adom t := rfl
    rw [hcons, List.mem_cons]
    by_cases h : a = k
    · subst h; simp
    · have hka : ¬ k = a := fun hh => h hh.symm
      simp [alookup, h, hka, ih]

theorem adom_aset_mem {α : Type} (l : List (String × α)) (k k' : String) (v : α) :
    k' ∈ adom (aset l k v) ↔ k' = k ∨ k' ∈ adom l := by
  rw [mem_adom_iff_isSome, alookup_aset, mem_adom_iff_isSome]
  by_cases h : k = k'
  · subst h; simp
  · have : ¬ k' = k := fun hh => h hh.symm
    simp [h, this]

theorem adom_aerase_mem {α : Type} (l : List (String × α)) (k k' : String) :
    k' ∈ adom (aerase l k) ↔ k' ≠ k ∧ k' ∈ adom l := by
  rw [mem_adom_iff_isSome, alookup_aerase, mem_adom_iff_isSome]
  by_cases h : k = k'
  · subst h; simp
  · have : ¬ k' = k := fun hh => h hh.symm
    simp [h, this]

theorem adom_aset_nodup {α : Type} (l : List (String × α)) (k : String) (v : α)
    (h : (adom l).Nodup) : (adom (aset l k v)).Nodup := by
  induction l with
  | nil => simp [aset, adom]
  | cons p t ih =>
    obtain ⟨a, b⟩ := p
    have hcons : adom ((a, b) :: t) = a :: adom t := rfl
    rw [hcons, List.nodup_cons] at h
    simp only [aset]
    by_cases hak : a = k
    · rw [if_pos hak]
      have hc : adom ((k, v) :: t) = k :: adom t := rfl
      rw [hc, List.nodup_cons]
      exact ⟨hak ▸ h.1, h.2⟩
    · rw [if_neg hak]
      have hc : adom ((a, b) :: aset t k v) = a :: adom (aset t k v) := rfl
      rw [hc, List.nodup_cons]
      refine ⟨?_, ih h.2⟩
      intro hmem
      rcases (adom_aset_mem t k a v).mp hmem with h1 | h2
      · exact hak h1
      · exact h.1 h2

theorem adom_aerase_nodup {α : Type} (l : List (String × α)) (k : String)
    (h : (adom l).Nodup) : (adom (aerase l k)).Nodup := by
  induction l with
  | nil => simp [aerase, adom]
  | cons p t ih =>
    obtain ⟨a, b⟩ := p
    have hcons : adom ((a, b) :: t) = a :: adom t := rfl
    rw [hcons, List.nodup_cons] at h
    simp only [aerase]
    by_cases hak : a = k
    · rw [if_pos hak]; exact ih h.2
    · rw [if_neg hak]
      have hc : adom ((a, b) :: aerase t k) = a :: adom (aerase t k) := rfl
      rw [hc, List.nodup_cons]
      refine ⟨?_, ih h.2⟩
      intro hmem
      exact h.1 ((adom_aerase_mem t k a).mp hmem).2

theorem adom_length_le_one_of_subset {α : Type} (l : List (String × α)) (k : String)
    (hnd : (adom l).Nodup) (hsub : ∀ x ∈ adom l, x = k) : l.length ≤ 1 := by
  cases l with
  | nil => simp
  | cons p t =>
    obtain ⟨a, b⟩ := p
    cases t with
    | nil => simp
    | cons q u =>
      obtain ⟨c, d⟩ := q
      exfalso
      simp only [adom, List.map_cons, List.nodup_cons] at hnd
      have ha : a = k := hsub a (by simp [adom])
      have hc : c = k := hsub c (by simp [adom])
      exact hnd.1 (by simp [adom, ha, hc])

/-! ## The store (src/storage/kv_store.cpp) -/

/-- State of one `KVStore` database: the string store, the hash store, the
expiration table (absolute wall-clock seconds), the LRU recency list
(most-recent first) and the domain of the key-to-node index `lru_map_`. -/
structure KVStore where
  store : List (String × String)
  hashStore : List (String × List (String × String))
  expirations : List (String × Int)
  lruOrder : List String
  lruMap : List String
deriving Repr, DecidableEq

/-- `MAX_KEYS`, the LRU eviction threshold (kv_store.hpp). -/
def MAX_KEYS : Nat := 10000

/-- A fresh, empty database. -/
def KVStore.empty : KVStore := ⟨[], [], [], [], []⟩

/-- `KVStore::check_and_remove_expired`: if the key has an expiration with
`now >= expiry`, drop its value from both stores, its expiration entry,
and its recency node. -/
def KVStore.checkAndRemoveExpired (s : KVStore) (now : Int) (key : String) : KVStore :=
  match alookup s.expirations key with
  | none => s
  | some exp =>
    if now ≥ exp then
      { store := aerase s.store key
        hashStore := aerase s.hashStore key
        expirations := aerase s.expirations key
        lruOrder := if key ∈ s.lruMap then s.lruOrder.erase key else s.lruOrder
        lruMap := if key ∈ s.lruMap then s.lruMap.erase key else s.lruMap }
    else s

/-- `KVStore::update_lru`: unlink the key's current recency node if the index
has one, then push the key to the front and (re)index it. -/
def KVStore.updateLru (s : KVStore) (key : String) : KVStore :=
  { s with
    lruOrder := key :: (if key ∈ s.lruMap then s.lruOrder.erase key else s.lruOrder)
    lruMap := key :: (if key ∈ s.lruMap then s.lruMap.erase key else s.lruMap) }

/-- `store_.size() + hash_store_.size()`. -/
def KVStore.liveSize (s : KVStore) : Nat := s.store.length + s.hashStore.length

/-- One iteration of the `KVStore::evict_if_needed` loop body: remove the
least-recent key (list back) from both stores, the expiration table and
the recency structures. -/
def KVStore.evictOne (s : KVStore) : KVStore :=
  match s.lruOrder.getLast? with
  | none => s
  | some oldest =>
    { store := aerase s.store oldest
      hashStore := aerase s.hashStore oldest
      expirations := aerase s.expirations oldest
      lruOrder := s.lruOrder.dropLast
      lruMap := s.lruMap.erase oldest }

/-- The `while (current_size > MAX_KEYS && !lru_order_.empty())` loop, with
fuel; each iteration pops one recency node, so `lruOrder.length` fuel is
exactly enough. -/
def KVStore.evictLoop : Nat → KVStore → KVStore
  | 0, s => s
  | fuel + 1, s =>
    if s.liveSize > MAX_KEYS ∧ s.lruOrder ≠ [] then KVStore.evictLoop fuel s.evictOne else s

/-- `KVStore::evict_if_needed`. -/
def KVStore.evictIfNeeded (s : KVStore) : KVStore := KVStore.evictLoop s.lruOrder.length s

/-- `KVStore::set`: probe-expire, drop any hash at the key (overwrite),
store the string, touch recency, evict if needed.  Note that the C++ does
NOT erase a still-live expiration entry for the key. -/
def KVStore.set (s : KVStore) (now : Int) (key value : String) : KVStore :=
  let s := s.checkAndRemoveExpired now key
  let s := { s with hashStore := aerase s.hashStore key }
  let s := { s with store := aset s.store key value }
  let s := s.updateLru key
  s.evictIfNeeded

/-- `KVStore::get`: probe-expire, then string-store lookup; a hit touches
recency. -/
def KVStore.get (s : KVStore) (now : Int) (key : String) : Option String × KVStore :=
  let s := s.checkAndRemoveExpired now key
  match alookup s.store key with
  | none => (none, s)
  | some v => (some v, s.updateLru key)

/-- `KVStore::del`: probe-expire, erase from both stores; if either erased,
also drop the expiration entry and the recency node. -/
def KVStore.del (s : KVStore) (now : Int) (key : String) : Bool × KVStore :=
  let s := s.checkAndRemoveExpired now key
  let removed := (alookup s.store key).isSome || (alookup s.hashStore key).isSome
  if removed then
    (true,
      { store := aerase s.store key
        hashStore := aerase s.hashStore key
        expirations := aerase s.expirations key
        lruOrder := if key ∈ s.lruMap then s.lruOrder.erase key else s.lruOrder
        lruMap := if key ∈ s.lruMap then s.lruMap.erase key else s.lruMap })
  else (false, s)

/-- `KVStore::exists`. -/
def KVStore.existsKey (s : KVStore) (now : Int) (key : String) : Bool × KVStore :=
  let s := s.checkAndRemoveExpired now key
  ((alookup s.store key).isSome || (alookup s.hashStore key).isSome, s)

/-- `KVStore::keys`: probe-expire every key of both stores, then list the
remaining keys (strings first, then hashes). -/
def KVStore.keysOp (s : KVStore) (now : Int) : List String × KVStore :=
  let toCheck := adom s.store ++ adom s.hashStore
  let s := toCheck.foldl (fun acc k => acc.checkAndRemoveExpired now k) s
  (adom s.store ++ adom s.hashStore, s)

/-- `KVStore::expire`: probe-expire; if the key is live, record the absolute
expiration `now + seconds` and report success. -/
def KVStore.expire (s : KVStore) (now : Int) (key : String) (seconds : Int) : Bool × KVStore :=
  let s := s.checkAndRemoveExpired now key
  if (alookup s.store key).isSome || (alookup s.hashStore key).isSome then
    (true, { s with expirations := aset s.expirations key (now + seconds) })
  else (false, s)

/-- `KVStore::ttl`: `-2` for a dead key, `-1` for a live key without
expiration, else the remaining seconds (`-2` if non-positive). -/
def KVStore.ttl (s : KVStore) (now : Int) (key : String) : Int × KVStore :=
  let s := s.checkAndRemoveExpired now key
  if (alookup s.store key).isSome || (alookup s.hashStore key).isSome then
    match alookup s.expirations key with
    | none => (-1, s)
    | some exp => (if exp - now > 0 then exp - now else -2, s)
  else (-2, s)

/-- `KVStore::KeyType`. -/
inductive KeyType | str | hash | none
deriving Repr, DecidableEq

/-- `KVStore::type`: string store takes precedence, then hash store. -/
def KVStore.typeOf (s : KVStore) (now : Int) (key : String) : KeyType × KVStore :=
  let s := s.checkAndRemoveExpired now key
  if (alookup s.store key).isSome then (KeyType.str, s)
  else if (alookup s.hashStore key).isSome then (KeyType.hash, s)
  else (KeyType.none, s)

/-- `KVStore::hset`: probe-expire, drop any string at the key (overwrite),
insert the field (reporting `1` for a new field, `0` for an update), touch
recency, evict if needed. -/
def KVStore.hset (s : KVStore) (now : Int) (key field value : String) : Int × KVStore :=
  let s := s.checkAndRemoveExpired now key
  let s := { s with store := aerase s.store key }
  let fields := (alookup s.hashStore key).getD []
  let isNew : Int := if (alookup fields field).isSome then 0 else 1
  let s := { s with hashStore := aset s.hashStore key (aset fields field value) }
  let s := s.updateLru key
  (isNew, s.evictIfNeeded)

/-- `KVStore::hget`: probe-expire, then hash lookup; only a field hit touches
recency. -/
def KVStore.hget (s : KVStore) (now : Int) (key field : String) : Option String × KVStore :=
  let s := s.checkAndRemoveExpired now key
  match alookup s.hashStore key with
  | none => (none, s)
  | some fields =>
    match alookup fields field with
    | none => (none, s)
    | some v => (some v, s.updateLru key)

/-! ## RDB snapshot (KVStore::save_to_rdb / load_from_rdb)

The binary file is modelled at record granularity: the byte-level format
(little-endian u32 lengths, u8 type tag, i64 expiry) is a bijection between
well-formed byte files and the record list below, so the claims about which
entries survive a save/load round trip are decided here. -/

/-- One snapshot record: type tag 0 (string) or 1 (hash), key, payload,
absolute expiry seconds (0 = no TTL). -/
inductive RdbValue
  | str (v : String)
  | hash (fields : List (String × String))
deriving Repr, DecidableEq

structure RdbEntry where
  key : String
  value : RdbValue
  expiry : Int
deriving Repr, DecidableEq

/-- `KVStore::save_to_rdb`: purge expired keys (both stores), then emit all
string entries followed by all hash entries, each with its expiration (or 0).
The purge mutates the store, so the mutated store is returned as well. -/
def KVStore.saveToRdb (s : KVStore) (now : Int) : List RdbEntry × KVStore :=
  let toCheck := adom s.store ++ adom s.hashStore
  let s := toCheck.foldl (fun acc k => acc.checkAndRemoveExpired now k) s
  let strEntries := s.store.map fun p =>
    RdbEntry.mk p.1 (RdbValue.str p.2) ((alookup s.expirations p.1).getD 0)
  let hashEntries := s.hashStore.map fun p =>
    RdbEntry.mk p.1 (RdbValue.hash p.2) ((alookup s.expirations p.1).getD 0)
  (strEntries ++ hashEntries, s)

/-- Loading one record inside `KVStore::load_from_rdb`: insert the value
(`hash_store_[key][field] = val` per field, so a zero-field hash inserts
nothing), touch recency, then restore the expiration only when
`expiry > 0 && expiry > now`. -/
def KVStore.loadEntry (s : KVStore) (now : Int) (e : RdbEntry) : KVStore :=
  let s :=
    match e.value with
    | RdbValue.str v => { s with store := aset s.store e.key v }
    | RdbValue.hash fields =>
      fields.foldl
        (fun acc (fv : String × String) =>
          { acc with
            hashStore :=
              aset acc.hashStore e.key (aset ((alookup acc.hashStore e.key).getD []) fv.1 fv.2) })
        s
  let s := s.updateLru e.key
  if e.expiry > 0 ∧ e.expiry > now then
    { s with expirations := aset s.expirations e.key e.expiry }
  else s

/-- `KVStore::load_from_rdb`: clear the destination database entirely, load
every record, then run eviction.  The destination argument only documents
that its prior contents are discarded. -/
def KVStore.loadFromRdb (_dst : KVStore) (now : Int) (file : List RdbEntry) : KVStore :=
  let s := KVStore.empty
  let s := file.foldl (fun acc e => acc.loadEntry now e) s
  s.evictIfNeeded

/-! ## Command model (src/protocol/parser.hpp / parser.cpp) -/

/-- `protocol::CommandType`, exactly the enumerators of parser.hpp. -/
inductive CommandType
  | UNKNOWN | PING | ECHO | SET | GET | DEL | EXISTS | KEYS | EXPIRE | TTL
  | MGET | QUIT | SAVE | LOAD | SELECT | INFO | SUBSCRIBE | PUBLISH | EVAL
  | AUTH | HSET | HGET
deriving Repr, DecidableEq

/-- `protocol::Command`. -/
structure Command where
  type : CommandType
  args : List String
deriving Repr, DecidableEq

/-- `protocol::command_from_resp_array`: resolve the first element (already
upper-cased by the RESP parser) to a command kind; everything not in the
if-chain resolves to `UNKNOWN`. -/
def command_from_resp_array (args : List String) : Command :=
  match args with
  | [] => ⟨CommandType.UNKNOWN, []⟩
  | name :: rest =>
    let t :=
      if name = "PING" then CommandType.PING
      else if name = "ECHO" then CommandType.ECHO
      else if name = "SET" then CommandType.SET
      else if name = "GET" then CommandType.GET
      else if name = "DEL" then CommandType.DEL
      else if name = "EXISTS" then CommandType.EXISTS
      else if name = "KEYS" then CommandType.KEYS
      else if name = "EXPIRE" then CommandType.EXPIRE
      else if name = "TTL" then CommandType.TTL
      else if name = "MGET" then CommandType.MGET
      else if name = "QUIT" then CommandType.QUIT
      else if name = "SAVE" then CommandType.SAVE
      else if name = "LOAD" then CommandType.LOAD
      else if name = "SELECT" then CommandType.SELECT
      else if name = "INFO" then CommandType.INFO
      else if name = "SUBSCRIBE" then CommandType.SUBSCRIBE
      else if name = "PUBLISH" then CommandType.PUBLISH
      else if name = "EVAL" then CommandType.EVAL
      else if name = "AUTH" then CommandType.AUTH
      else CommandType.UNKNOWN
    ⟨t, rest⟩

/-! ## Reply serializers (src/protocol/resp_utils.cpp) -/

def resp_simple (msg : String) : String := "+" ++ msg ++ "\r\n"

def resp_bulk (msg : String) : String :=
  "$" ++ toString msg.length ++ "\r\n" ++ msg ++ "\r\n"

def resp_nil : String := "$-1\r\n"

def resp_integer (value : Int) : String := ":" ++ toString value ++ "\r\n"

def resp_err (msg : String) : String := "-" ++ msg ++ "\r\n"

def resp_array (items : List String) : String :=
  "*" ++ toString items.length ++ "\r\n" ++ String.join (items.map resp_bulk)

/-! ## AOF journal filter and wire encoding (src/storage/aof_logger.cpp)
and replication filter (src/server/replication.cpp) -/

/-- The static `command_to_resp` shared (textually duplicated) by the AOF
logger and the replication manager: only `SET`, `DEL` and `EXPIRE` have a
wire name; every other kind encodes to the empty string. -/
def command_to_resp (cmd : Command) : String :=
  let cmdName :=
    match cmd.type with
    | CommandType.SET => "SET"
    | CommandType.DEL => "DEL"
    | CommandType.EXPIRE => "EXPIRE"
    | _ => ""
  if cmdName = "" then ""
  else
    "*" ++ toString (1 + cmd.args.length) ++ "\r\n"
      ++ "$" ++ toString cmdName.length ++ "\r\n" ++ cmdName ++ "\r\n"
      ++ String.join (cmd.args.map fun arg =>
          "$" ++ toString arg.length ++ "\r\n" ++ arg ++ "\r\n")

/-- `AOFLogger::append`: commands whose type is not `SET`, `DEL` or `EXPIRE`
are dropped before encoding; otherwise the wire form is pushed onto the
in-memory queue. -/
def AOFLogger.append (queue : List String) (cmd : Command) : List String :=
  if cmd.type ≠ CommandType.SET ∧ cmd.type ≠ CommandType.DEL ∧ cmd.type ≠ CommandType.EXPIRE then
    queue
  else
    let respCmd := command_to_resp cmd
    if respCmd = "" then queue else queue ++ [respCmd]

/-- `ReplicationManager::replicate_command` up to the socket writes: the
payload sent to every connected replica, or `none` when the command is
filtered out (not `SET`/`DEL`/`EXPIRE`, or empty encoding). -/
def ReplicationManager.replicatePayload (cmd : Command) : Option String :=
  if cmd.type ≠ CommandType.SET ∧ cmd.type ≠ CommandType.DEL ∧ cmd.type ≠ CommandType.EXPIRE then
    Option.none
  else
    let respCmd := command_to_resp cmd
    if respCmd = "" then Option.none else Option.some respCmd

/-- One replayed frame of `AOFLogger::replay`: upper-case the verb, apply
recognized `SET`/`DEL`/`EXPIRE` frames with sufficient arity to database 0,
skip everything else.  (`frame` is the already-parsed bulk-string list; the
`stoiOpt` argument is supplied below once `std::stoi` is modelled.) -/
def AOFLogger.replayFrame (stoiOpt : String → Option Int) (s : KVStore) (now : Int)
    (frame : List String) : KVStore :=
  match frame with
  | [] => s
  | name :: args =>
    let upper := String.mk (name.data.map fun c => if 'a' ≤ c ∧ c ≤ 'z' then Char.ofNat (c.toNat - 32) else c)
    if upper = "SET" then
      match args with
      | k :: v :: _ => s.set now k v
      | _ => s
    else if upper = "DEL" then
      match args with
      | k :: _ => (s.del now k).2
      | _ => s
    else if upper = "EXPIRE" then
      match args with
      | k :: secs :: _ =>
        match stoiOpt secs with
        | Option.some n => (s.expire now k n).2
        | Option.none => s
      | _ => s
    else s

/-- `AOFLogger::replay` over a list of already-parsed frames. -/
def AOFLogger.replay (stoiOpt : String → Option Int) (s : KVStore) (now : Int)
    (frames : List (List String)) : KVStore :=
  frames.foldl (fun acc f => AOFLogger.replayFrame stoiOpt acc now f) s

/-! ## `std::stoi` and the incremental RESP parser (src/protocol/resp_parser.cpp) -/

/-- `isspace` in the C locale. -/
def isSpaceC (c : Char) : Bool :=
  c = ' ' || c = '\t' || c = '\n' || c = '\x0b' || c = '\x0c' || c = '\r'

/-- Value of a digit run. -/
def digitsToNat (l : List Char) : Nat :=
  l.foldl (fun acc c => acc * 10 + (c.toNat - 48)) 0

/-- `std::stoi`: skip leading whitespace, optional sign, then a non-empty
digit run (trailing garbage ignored); `none` models the thrown
`std::invalid_argument`.  `int` overflow (`std::out_of_range`) is not
modelled; all inputs in this development are small. -/
def cppStoi (s : List Char) : Option Int :=
  let s := s.dropWhile isSpaceC
  let signAndRest : Int × List Char :=
    match s with
    | '-' :: t => (-1, t)
    | '+' :: t => (1, t)
    | t => (1, t)
  let ds := signAndRest.2.takeWhile fun c => decide ('0' ≤ c) && decide (c ≤ '9')
  if ds.isEmpty then Option.none else Option.some (signAndRest.1 * digitsToNat ds)

/-- ASCII upper-casing (`std::toupper` over each char, C locale). -/
def toUpperAscii (s : String) : String :=
  String.mk (s.data.map fun c => if 'a' ≤ c ∧ c ≤ 'z' then Char.ofNat (c.toNat - 32) else c)

/-- `RespResult` (resp_parser.hpp): completion flag, parsed bulk strings,
error text. -/
structure RespResult where
  complete : Bool
  command : List String
  error : String
deriving Repr, DecidableEq

/-- Outcome of one `RespParser::parse` call: a returned `RespResult`, or the
uncaught `std::stoi` exception escaping `parse`. -/
inductive RespOut
  | res (r : RespResult)
  | exn
deriving Repr, DecidableEq

/-- Position of the first CRLF in the buffer (`buffer.find("\r\n")`). -/
def findCrlf : List Char → Option Nat
  | '\r' :: '\n' :: _ => Option.some 0
  | _ :: t => (findCrlf t).map (· + 1)
  | [] => Option.none

/-- `RespParser::readLine`: take up to the first CRLF and consume it; on
no CRLF leave the buffer untouched. -/
def RespParser.readLine (buf : List Char) : Option (List Char) × List Char :=
  match findCrlf buf with
  | Option.none => (Option.none, buf)
  | Option.some pos => (Option.some (buf.take pos), buf.drop (pos + 2))

/-- `RespParser::readBytes`: needs `n + 2` bytes; consumes the `n` data
bytes FIRST, then requires CRLF — when the CRLF check fails the `n` bytes
stay consumed and `nullopt` is returned. -/
def RespParser.readBytes (buf : List Char) (n : Nat) : Option (List Char) × List Char :=
  if buf.length < n + 2 then (Option.none, buf)
  else
    let data := buf.take n
    match buf.drop n with
    | '\r' :: '\n' :: r2 => (Option.some data, r2)
    | rest => (Option.none, rest)

/-- The element loop of `RespParser::parse` (`for (int i = 0; i < count; i++)`),
followed by the upper-casing of the first element. -/
def RespParser.parseElems : Nat → List Char → List String → RespOut × List Char
  | 0, buf, elements =>
    let elements :=
      match elements with
      | [] => elements
      | h :: t => toUpperAscii h :: t
    (RespOut.res ⟨true, elements, ""⟩, buf)
  | i + 1, buf, elements =>
    if buf.isEmpty then (RespOut.res ⟨false, [], ""⟩, buf)
    else if buf.head? ≠ Option.some '$' then
      (RespOut.res ⟨true, [], "ERR expected bulk string"⟩, buf)
    else
      match RespParser.readLine (buf.drop 1) with
      | (Option.none, buf2) => (RespOut.res ⟨false, [], ""⟩, buf2)
      | (Option.some lenLine, buf2) =>
        match cppStoi lenLine with
        | Option.none => (RespOut.exn, buf2)
        | Option.some len =>
          if len < 0 then RespParser.parseElems i buf2 (elements ++ [""])
          else
            match RespParser.readBytes buf2 len.toNat with
            | (Option.none, buf3) => (RespOut.res ⟨false, [], ""⟩, buf3)
            | (Option.some data, buf3) => RespParser.parseElems i buf3 (elements ++ [String.mk data])

/-- `RespParser::parse` on the current buffer, returning the result and the
buffer left behind (the C++ mutates the member `buffer`). -/
def RespParser.parse (buffer : List Char) : RespOut × List Char :=
  if buffer.isEmpty then (RespOut.res ⟨false, [], ""⟩, buffer)
  else if buffer.head? ≠ Option.some '*' then
    (RespOut.res ⟨true, [], "ERR expected array"⟩, buffer)
  else
    match RespParser.readLine (buffer.drop 1) with
    | (Option.none, buf2) => (RespOut.res ⟨false, [], ""⟩, buf2)
    | (Option.some countLine, buf2) =>
      match cppStoi countLine with
      | Option.none => (RespOut.exn, buf2)
      | Option.some count =>
        if count ≤ 0 then (RespOut.res ⟨true, [], "ERR invalid array length"⟩, buf2)
        else RespParser.parseElems count.toNat buf2 []

/-! ## Command handlers (src/server/commands.cpp) -/

/-- `detail::CommandResult`. -/
structure CommandResult where
  reply : String
  success : Bool
  shouldQuit : Bool
deriving Repr, DecidableEq

def WRONGTYPE_MSG : String :=
  "WRONGTYPE Operation against a key holding the wrong kind of value"

/-- `SetCommand::execute` (journal/replication side effects are applied to
the AOF queue; `AOFLogger::append` is invoked unconditionally on success). -/
def SetCommand.execute (cmd : Command) (kv : KVStore) (now : Int) (aofQueue : List String) :
    CommandResult × KVStore × List String :=
  match cmd.args with
  | k :: v :: _ =>
    let kv := kv.set now k v
    (⟨resp_simple "OK", true, false⟩, kv, AOFLogger.append aofQueue cmd)
  | _ => (⟨resp_err "SET requires key and value", false, false⟩, kv, aofQueue)

/-- `GetCommand::execute`: `WRONGTYPE` on a hash key, else bulk-or-nil. -/
def GetCommand.execute (cmd : Command) (kv : KVStore) (now : Int) :
    CommandResult × KVStore :=
  match cmd.args with
  | [] => (⟨resp_err "GET requires a key", false, false⟩, kv)
  | k :: _ =>
    let tkv := kv.typeOf now k
    if tkv.1 = KeyType.hash then (⟨resp_err WRONGTYPE_MSG, false, false⟩, tkv.2)
    else
      match tkv.2.get now k with
      | (Option.some v, kv2) => (⟨resp_bulk v, true, false⟩, kv2)
      | (Option.none, kv2) => (⟨resp_nil, true, false⟩, kv2)

/-- `HSetCommand::execute`: `WRONGTYPE` on a string key (no mutation beyond
the expiry probe inside `type`); on success `AOFLogger::append` is invoked
with the `HSET` command. -/
def HSetCommand.execute (cmd : Command) (kv : KVStore) (now : Int) (aofQueue : List String) :
    CommandResult × KVStore × List String :=
  match cmd.args with
  | k :: f :: v :: _ =>
    let tkv := kv.typeOf now k
    if tkv.1 = KeyType.str then (⟨resp_err WRONGTYPE_MSG, false, false⟩, tkv.2, aofQueue)
    else
      let (ret, kv2) := tkv.2.hset now k f v
      (⟨resp_integer ret, true, false⟩, kv2, AOFLogger.append aofQueue cmd)
  | _ => (⟨resp_err "HSET requires key, field, and value", false, false⟩, kv, aofQueue)

/-- `HGetCommand::execute`: `WRONGTYPE` on a string key, else bulk-or-nil. -/
def HGetCommand.execute (cmd : Command) (kv : KVStore) (now : Int) :
    CommandResult × KVStore :=
  match cmd.args with
  | k :: f :: _ =>
    let tkv := kv.typeOf now k
    if tkv.1 = KeyType.str then (⟨resp_err WRONGTYPE_MSG, false, false⟩, tkv.2)
    else
      match tkv.2.hget now k f with
      | (Option.some v, kv2) => (⟨resp_bulk v, true, false⟩, kv2)
      | (Option.none, kv2) => (⟨resp_nil, true, false⟩, kv2)
  | _ => (⟨resp_err "HGET requires key and field", false, false⟩, kv)

/-- `MGetCommand::execute`: per key, a hash-typed key contributes `""`
(later rendered nil), otherwise the `get` result or `""`; the reply renders
every EMPTY accumulated value as nil. -/
def MGetCommand.execute (cmd : Command) (kv : KVStore) (now : Int) :
    CommandResult × KVStore :=
  match cmd.args with
  | [] => (⟨resp_err "MGET requires at least one key", false, false⟩, kv)
  | _ =>
    let step := fun (acc : List String × KVStore) (key : String) =>
      let tkv := acc.2.typeOf now key
      if tkv.1 = KeyType.hash then (acc.1 ++ [""], tkv.2)
      else
        match tkv.2.get now key with
        | (Option.some v, kv2) => (acc.1 ++ [v], kv2)
        | (Option.none, kv2) => (acc.1 ++ [""], kv2)
    let vkv := cmd.args.foldl step ([], kv)
    let reply := "*" ++ toString vkv.1.length ++ "\r\n"
      ++ String.join (vkv.1.map fun val => if val = "" then resp_nil else resp_bulk val)
    (⟨reply, true, false⟩, vkv.2)

/-- `ExpireCommand::execute`: `std::stoi` on the seconds argument (the catch
branch reports "Invalid seconds value"); on an applied expiration the
command is journaled. -/
def ExpireCommand.execute (cmd : Command) (kv : KVStore) (now : Int) (aofQueue : List String) :
    CommandResult × KVStore × List String :=
  match cmd.args with
  | k :: secStr :: _ =>
    match cppStoi secStr.data with
    | Option.none => (⟨resp_err "Invalid seconds value", false, false⟩, kv, aofQueue)
    | Option.some seconds =>
      let (st, kv2) := kv.expire now k seconds
      let q := if st then AOFLogger.append aofQueue cmd else aofQueue
      (⟨resp_integer (if st then 1 else 0), true, false⟩, kv2, q)
  | _ => (⟨resp_err "EXPIRE requires key and seconds", false, false⟩, kv, aofQueue)

/-! ## Structural well-formedness of a store state -/

/-- A key is live when either store holds a value for it. -/
def KVStore.live (s : KVStore) (k : String) : Prop :=
  (alookup s.store k).isSome ∨ (alookup s.hashStore k).isSome

instance (s : KVStore) (k : String) : Decidable (s.live k) := by
  unfold KVStore.live; infer_instance

/-- Well-formedness: the three maps have duplicate-free domains, the recency
list and the index are duplicate-free, the index and the list hold the same
keys, and the recency list holds exactly the live keys. -/
def KVStore.wf (s : KVStore) : Prop :=
  (adom s.store).Nodup ∧ (adom s.hashStore).Nodup ∧ (adom s.expirations).Nodup ∧
  s.lruOrder.Nodup ∧ s.lruMap.Nodup ∧
  (∀ x, x ∈ s.lruMap ↔ x ∈ s.lruOrder) ∧
  (∀ x, s.live x ↔ x ∈ s.lruOrder)

/-- The spec's recency invariant: every live key exactly once in the recency
list and in the key-to-node index, no dead key in either. -/
def KVStore.lruInvariant (s : KVStore) : Prop :=
  (∀ k, s.live k → s.lruOrder.count k = 1 ∧ s.lruMap.count k = 1) ∧
  (∀ k, ¬ s.live k → k ∉ s.lruOrder ∧ k ∉ s.lruMap)

theorem wf_lruInvariant (s : KVStore) (h : s.wf) : s.lruInvariant := by
  obtain ⟨h1, h2, h3, h4, h5, h6, h7⟩ := h
  constructor
  · intro k hk
    have hmem : k ∈ s.lruOrder := (h7 k).mp hk
    have hmem' : k ∈ s.lruMap := (h6 k).mpr hmem
    exact ⟨List.count_eq_one_of_mem h4 hmem, List.count_eq_one_of_mem h5 hmem'⟩
  · intro k hk
    have hno : k ∉ s.lruOrder := fun hmem => hk ((h7 k).mpr hmem)
    exact ⟨hno, fun hmem => hno ((h6 k).mp hmem)⟩

theorem wf_empty : KVStore.wf KVStore.empty := by
  refine ⟨?_, ?_, ?_, ?_, ?_, ?_, ?_⟩ <;> simp [KVStore.empty, adom, KVStore.live]

theorem wf_checkAndRemoveExpired (s : KVStore) (now : Int) (k : String) (h : s.wf) :
    (s.checkAndRemoveExpired now k).wf := by
  obtain ⟨h1, h2, h3, h4, h5, h6, h7⟩ := h
  unfold KVStore.checkAndRemoveExpired
  cases hexp : alookup s.expirations k with
  | none => exact ⟨h1, h2, h3, h4, h5, h6, h7⟩
  | some e =>
    by_cases hle : now ≥ e
    · simp only [hle, if_pos]
      by_cases hmem : k ∈ s.lruMap
      · simp only [hmem, if_pos]
        refine ⟨adom_aerase_nodup _ _ h1, adom_aerase_nodup _ _ h2, adom_aerase_nodup _ _ h3,
          h4.erase k, h5.erase k, ?_, ?_⟩
        · intro x
          rw [h5.mem_erase_iff, h4.mem_erase_iff, h6 x]
        · intro x
          rw [h4.mem_erase_iff]
          unfold KVStore.live
          simp only [alookup_aerase]
          by_cases hxk : k = x
          · subst hxk; simp
          · have hxk' : ¬ x = k := fun hh => hxk hh.symm
            simp only [hxk, if_neg, ne_eq, hxk', not_false_iff, true_and]
            exact h7 x
      · simp only [hmem, if_neg]
        have hknotlive : ¬ s.live k := by
          intro hl
          exact hmem ((h6 k).mpr ((h7 k).mp hl))
        have hknoorder : k ∉ s.lruOrder := fun hm => hmem ((h6 k).mpr hm)
        refine ⟨adom_aerase_nodup _ _ h1, adom_aerase_nodup _ _ h2, adom_aerase_nodup _ _ h3,
          h4, h5, h6, ?_⟩
        intro x
        unfold KVStore.live
        simp only [alookup_aerase]
        by_cases hxk : k = x
        · subst hxk
          simp only [if_pos rfl]
          simp [hknoorder]
        · have hxk' : ¬ x = k := fun hh => hxk hh.symm
          simp only [hxk, if_neg]
          exact h7 x
    · simp only [hle, if_neg]
      exact ⟨h1, h2, h3, h4, h5, h6, h7⟩

/-- Well-formedness with the live/recency correspondence waived at one key:
the state right after a bare store insertion or erasure at `k`, before
`update_lru k` runs. -/
def KVStore.wfExcept (s : KVStore) (k : String) : Prop :=
  (adom s.store).Nodup ∧ (adom s.hashStore).Nodup ∧ (adom s.expirations).Nodup ∧
  s.lruOrder.Nodup ∧ s.lruMap.Nodup ∧
  (∀ x, x ∈ s.lruMap ↔ x ∈ s.lruOrder) ∧
  (∀ x, x ≠ k → (s.live x ↔ x ∈ s.lruOrder))

theorem wf_wfExcept (s : KVStore) (k : String) (h : s.wf) : s.wfExcept k := by
  obtain ⟨h1, h2, h3, h4, h5, h6, h7⟩ := h
  exact ⟨h1, h2, h3, h4, h5, h6, fun x _ => h7 x⟩

theorem wf_updateLru (s : KVStore) (k : String) (h : s.wfExcept k) (hlive : s.live k) :
    (s.updateLru k).wf := by
  obtain ⟨h1, h2, h3, h4, h5, h6, h7⟩ := h
  unfold KVStore.updateLru
  by_cases hmem : k ∈ s.lruMap
  · have hordmem : k ∈ s.lruOrder := (h6 k).mp hmem
    simp only [if_pos hmem]
    refine ⟨h1, h2, h3, ?_, ?_, ?_, ?_⟩
    · exact List.Nodup.cons (h4.not_mem_erase) (h4.erase k)
    · exact List.Nodup.cons (h5.not_mem_erase) (h5.erase k)
    · intro x
      simp only [List.mem_cons, h5.mem_erase_iff, h4.mem_erase_iff, h6 x]
    · intro x
      simp only [List.mem_cons, h4.mem_erase_iff]
      by_cases hxk : x = k
      · subst hxk
        constructor
        · intro _
          exact Or.inl rfl
        · intro _
          exact hlive
      · constructor
        · intro hl
          exact Or.inr ⟨hxk, (h7 x hxk).mp hl⟩
        · intro hr
          rcases hr with hr | hr
          · exact absurd hr hxk
          · exact (h7 x hxk).mpr hr.2
  · have hordmem : k ∉ s.lruOrder := fun hm => hmem ((h6 k).mpr hm)
    simp only [if_neg hmem]
    refine ⟨h1, h2, h3, List.Nodup.cons hordmem h4, List.Nodup.cons hmem h5, ?_, ?_⟩
    · intro x
      simp only [List.mem_cons, h6 x]
    · intro x
      simp only [List.mem_cons]
      by_cases hxk : x = k
      · subst hxk
        constructor
        · intro _
          exact Or.inl rfl
        · intro _
          exact hlive
      · constructor
        · intro hl
          exact Or.inr ((h7 x hxk).mp hl)
        · intro hr
          rcases hr with hr | hr
          · exact absurd hr hxk
          · exact (h7 x hxk).mpr hr

theorem liveSize_le_of_singleton (s : KVStore) (k : String)
    (h1 : (adom s.store).Nodup) (h2 : (adom s.hashStore).Nodup)
    (h7 : ∀ x, s.live x ↔ x ∈ s.lruOrder) (hord : s.lruOrder = [k]) :
    s.liveSize ≤ 2 := by
  have hs : s.store.length ≤ 1 := by
    refine adom_length_le_one_of_subset _ k h1 ?_
    intro x hx
    have : s.live x := Or.inl ((mem_adom_iff_isSome _ _).mp hx)
    have := (h7 x).mp this
    rw [hord] at this
    simpa using this
  have hh : s.hashStore.length ≤ 1 := by
    refine adom_length_le_one_of_subset _ k h2 ?_
    intro x hx
    have : s.live x := Or.inr ((mem_adom_iff_isSome _ _).mp hx)
    have := (h7 x).mp this
    rw [hord] at this
    simpa using this
  unfold KVStore.liveSize
  omega

theorem wf_evictOne (s : KVStore) (h : s.wf) : s.evictOne.wf := by
  obtain ⟨h1, h2, h3, h4, h5, h6, h7⟩ := h
  unfold KVStore.evictOne
  cases hlast : s.lruOrder.getLast? with
  | none => exact ⟨h1, h2, h3, h4, h5, h6, h7⟩
  | some oldest =>
    have hne : s.lruOrder ≠ [] := by
      intro hempty
      rw [hempty] at hlast
      simp at hlast
    have hgl : s.lruOrder.getLast hne = oldest := by
      have := List.getLast?_eq_getLast s.lruOrder hne
      rw [this] at hlast
      exact Option.some_injective _ hlast
    have hsplit : s.lruOrder.dropLast ++ [oldest] = s.lruOrder := by
      rw [← hgl]
      exact List.dropLast_append_getLast hne
    have holdmem : oldest ∈ s.lruOrder := by
      rw [← hsplit]; simp
    have hdnodup : s.lruOrder.dropLast.Nodup := h4.sublist (List.dropLast_sublist _)
    have holdnotdrop : oldest ∉ s.lruOrder.dropLast := by
      intro hmem
      have : ¬ s.lruOrder.Nodup := by
        rw [← hsplit]
        intro hnd
        have := List.disjoint_of_nodup_append hnd
        exact this hmem (by simp)
      exact this h4
    have hmemdrop : ∀ x, x ∈ s.lruOrder.dropLast ↔ x ∈ s.lruOrder ∧ x ≠ oldest := by
      intro x
      constructor
      · intro hx
        refine ⟨by rw [← hsplit]; exact List.mem_append_left _ hx, ?_⟩
        intro hxo
        subst hxo
        exact holdnotdrop hx
      · rintro ⟨hx, hxo⟩
        rw [← hsplit] at hx
        rcases List.mem_append.mp hx with hl | hr
        · exact hl
        · simp at hr
          exact absurd hr hxo
    refine ⟨adom_aerase_nodup _ _ h1, adom_aerase_nodup _ _ h2, adom_aerase_nodup _ _ h3,
      hdnodup, h5.erase oldest, ?_, ?_⟩
    · intro x
      rw [h5.mem_erase_iff, hmemdrop x, h6 x, and_comm]
    · intro x
      rw [hmemdrop x]
      unfold KVStore.live
      simp only [alookup_aerase]
      by_cases hxo : oldest = x
      · subst hxo; simp
      · have hxo' : x ≠ oldest := fun hh => hxo hh.symm
        simp only [if_neg hxo]
        constructor
        · intro hl
          exact ⟨(h7 x).mp hl, hxo'⟩
        · intro hr
          exact (h7 x).mpr hr.1

theorem wf_evictLoop (fuel : Nat) (s : KVStore) (h : s.wf) : (KVStore.evictLoop fuel s).wf := by
  induction fuel generalizing s with
  | zero => exact h
  | succ n ih =>
    unfold KVStore.evictLoop
    by_cases hc : s.liveSize > MAX_KEYS ∧ s.lruOrder ≠ []
    · rw [if_pos hc]
      exact ih _ (wf_evictOne s h)
    · rw [if_neg hc]
      exact h

theorem wf_evictIfNeeded (s : KVStore) (h : s.wf) : s.evictIfNeeded.wf :=
  wf_evictLoop _ s h

theorem wf_eraseAll (s : KVStore) (k : String) (h : s.wf) :
    KVStore.wf
      ⟨aerase s.store k, aerase s.hashStore k, aerase s.expirations k,
        if k ∈ s.lruMap then s.lruOrder.erase k else s.lruOrder,
        if k ∈ s.lruMap then s.lruMap.erase k else s.lruMap⟩ := by
  obtain ⟨h1, h2, h3, h4, h5, h6, h7⟩ := h
  by_cases hmem : k ∈ s.lruMap
  · simp only [if_pos hmem]
    refine ⟨adom_aerase_nodup _ _ h1, adom_aerase_nodup _ _ h2, adom_aerase_nodup _ _ h3,
      h4.erase k, h5.erase k, ?_, ?_⟩
    · intro x
      rw [h5.mem_erase_iff, h4.mem_erase_iff, h6 x]
    · intro x
      rw [h4.mem_erase_iff]
      unfold KVStore.live
      simp only [alookup_aerase]
      by_cases hxk : k = x
      · subst hxk; simp
      · have hxk' : ¬ x = k := fun hh => hxk hh.symm
        simp only [if_neg hxk]
        constructor
        · intro hl
          exact ⟨hxk', (h7 x).mp hl⟩
        · intro hr
          exact (h7 x).mpr hr.2
  · have hnoord : k ∉ s.lruOrder := fun hm => hmem ((h6 k).mpr hm)
    simp only [if_neg hmem]
    refine ⟨adom_aerase_nodup _ _ h1, adom_aerase_nodup _ _ h2, adom_aerase_nodup _ _ h3,
      h4, h5, h6, ?_⟩
    intro x
    unfold KVStore.live
    simp only [alookup_aerase]
    by_cases hxk : k = x
    · subst hxk
      simp only [if_pos rfl]
      simp [hnoord]
    · simp only [if_neg hxk]
      exact h7 x

theorem wf_get (s : KVStore) (now : Int) (k : String) (h : s.wf) : (s.get now k).2.wf := by
  have h1 := wf_checkAndRemoveExpired s now k h
  cases hl : alookup (s.checkAndRemoveExpired now k).store k with
  | none => simpa [KVStore.get, hl] using h1
  | some v =>
    simp only [KVStore.get, hl]
    apply wf_updateLru _ _ (wf_wfExcept _ _ h1)
    unfold KVStore.live
    rw [hl]
    exact Or.inl rfl

theorem wf_set (s : KVStore) (now : Int) (k v : String) (h : s.wf) : (s.set now k v).wf := by
  unfold KVStore.set
  have h1 := wf_checkAndRemoveExpired s now k h
  apply wf_evictIfNeeded
  apply wf_updateLru
  · obtain ⟨w1, w2, w3, w4, w5, w6, w7⟩ := h1
    refine ⟨adom_aset_nodup _ _ _ w1, adom_aerase_nodup _ _ w2, w3, w4, w5, w6, ?_⟩
    intro x hxk
    have hxk2 : ¬ k = x := fun hh => hxk hh.symm
    unfold KVStore.live
    simp only [alookup_aset, alookup_aerase, if_neg hxk2]
    exact w7 x
  · unfold KVStore.live
    simp only [alookup_aset, if_pos rfl]
    exact Or.inl rfl

theorem wf_del (s : KVStore) (now : Int) (k : String) (h : s.wf) : (s.del now k).2.wf := by
  have h1 := wf_checkAndRemoveExpired s now k h
  cases hr : ((alookup (s.checkAndRemoveExpired now k).store k).isSome
      || (alookup (s.checkAndRemoveExpired now k).hashStore k).isSome) with
  | false => simpa [KVStore.del, hr] using h1
  | true =>
    simp only [KVStore.del, hr, if_pos]
    exact wf_eraseAll _ k h1

theorem wf_existsKey (s : KVStore) (now : Int) (k : String) (h : s.wf) :
    (s.existsKey now k).2.wf :=
  wf_checkAndRemoveExpired s now k h

theorem wf_expire (s : KVStore) (now : Int) (k : String) (n : Int) (h : s.wf) :
    (s.expire now k n).2.wf := by
  have h1 := wf_checkAndRemoveExpired s now k h
  cases hl : ((alookup (s.checkAndRemoveExpired now k).store k).isSome
      || (alookup (s.checkAndRemoveExpired now k).hashStore k).isSome) with
  | false => simpa [KVStore.expire, hl] using h1
  | true =>
    simp only [KVStore.expire, hl, if_pos]
    obtain ⟨w1, w2, w3, w4, w5, w6, w7⟩ := h1
    exact ⟨w1, w2, adom_aset_nodup _ _ _ w3, w4, w5, w6, w7⟩

theorem wf_ttl (s : KVStore) (now : Int) (k : String) (h : s.wf) : (s.ttl now k).2.wf := by
  have h1 := wf_checkAndRemoveExpired s now k h
  cases hl : ((alookup (s.checkAndRemoveExpired now k).store k).isSome
      || (alookup (s.checkAndRemoveExpired now k).hashStore k).isSome) with
  | false => simpa [KVStore.ttl, hl] using h1
  | true =>
    cases he : alookup (s.checkAndRemoveExpired now k).expirations k with
    | none => simpa [KVStore.ttl, hl, he] using h1
    | some e => simpa [KVStore.ttl, hl, he] using h1

theorem wf_typeOf (s : KVStore) (now : Int) (k : String) (h : s.wf) : (s.typeOf now k).2.wf := by
  have h1 := wf_checkAndRemoveExpired s now k h
  cases hl : (alookup (s.checkAndRemoveExpired now k).store k).isSome with
  | true => simpa [KVStore.typeOf, hl] using h1
  | false =>
    cases hl2 : (alookup (s.checkAndRemoveExpired now k).hashStore k).isSome with
    | true => simpa [KVStore.typeOf, hl, hl2] using h1
    | false => simpa [KVStore.typeOf, hl, hl2] using h1

theorem wf_foldl_check (s : KVStore) (now : Int) (ks : List String) (h : s.wf) :
    (ks.foldl (fun acc k => acc.checkAndRemoveExpired now k) s).wf := by
  induction ks generalizing s with
  | nil => exact h
  | cons k t ih => exact ih _ (wf_checkAndRemoveExpired s now k h)

theorem wf_keysOp (s : KVStore) (now : Int) (h : s.wf) : (s.keysOp now).2.wf :=
  wf_foldl_check s now _ h

theorem wf_saveToRdb (s : KVStore) (now : Int) (h : s.wf) : (s.saveToRdb now).2.wf :=
  wf_foldl_check s now _ h

theorem wf_hset (s : KVStore) (now : Int) (k f v : String) (h : s.wf) :
    (s.hset now k f v).2.wf := by
  unfold KVStore.hset
  have h1 := wf_checkAndRemoveExpired s now k h
  apply wf_evictIfNeeded
  apply wf_updateLru
  · obtain ⟨w1, w2, w3, w4, w5, w6, w7⟩ := h1
    refine ⟨adom_aerase_nodup _ _ w1, adom_aset_nodup _ _ _ w2, w3, w4, w5, w6, ?_⟩
    intro x hxk
    have hxk2 : ¬ k = x := fun hh => hxk hh.symm
    unfold KVStore.live
    simp only [alookup_aset, alookup_aerase, if_neg hxk2]
    exact w7 x
  · unfold KVStore.live
    simp only [alookup_aset, if_pos rfl]
    exact Or.inr rfl

theorem wf_hget (s : KVStore) (now : Int) (k f : String) (h : s.wf) :
    (s.hget now k f).2.wf := by
  have h1 := wf_checkAndRemoveExpired s now k h
  cases hl : alookup (s.checkAndRemoveExpired now k).hashStore k with
  | none => simpa [KVStore.hget, hl] using h1
  | some fields =>
    cases hf : alookup fields f with
    | none => simpa [KVStore.hget, hl, hf] using h1
    | some v =>
      simp only [KVStore.hget, hl, hf]
      apply wf_updateLru _ _ (wf_wfExcept _ _ h1)
      unfold KVStore.live
      rw [hl]
      exact Or.inr rfl

/-- Facts about the per-field hash insertion loop of `load_from_rdb`: it only
touches `hashStore` at the loaded key, keeps domains duplicate-free, and
makes the key's hash entry present exactly when at least one field was
read. -/
theorem loadHashFold_spec (key : String) (fields : List (String × String)) (s : KVStore) :
    ((fields.foldl
      (fun acc (fv : String × String) =>
        { acc with
          hashStore :=
            aset acc.hashStore key (aset ((alookup acc.hashStore key).getD []) fv.1 fv.2) })
      s).store = s.store ∧
    (fields.foldl
      (fun acc (fv : String × String) =>
        { acc with
          hashStore :=
            aset acc.hashStore key (aset ((alookup acc.hashStore key).getD []) fv.1 fv.2) })
      s).expirations = s.expirations ∧
    (fields.foldl
      (fun acc (fv : String × String) =>
        { acc with
          hashStore :=
            aset acc.hashStore key (aset ((alookup acc.hashStore key).getD []) fv.1 fv.2) })
      s).lruOrder = s.lruOrder ∧
    (fields.foldl
      (fun acc (fv : String × String) =>
        { acc with
          hashStore :=
            aset acc.hashStore key (aset ((alookup acc.hashStore key).getD []) fv.1 fv.2) })
      s).lruMap = s.lruMap ∧
    ((adom s.hashStore).Nodup →
      (adom (fields.foldl
        (fun acc (fv : String × String) =>
          { acc with
            hashStore :=
              aset acc.hashStore key (aset ((alookup acc.hashStore key).getD []) fv.1 fv.2) })
        s).hashStore).Nodup) ∧
    (∀ x, x ≠ key →
      alookup (fields.foldl
        (fun acc (fv : String × String) =>
          { acc with
            hashStore :=
              aset acc.hashStore key (aset ((alookup acc.hashStore key).getD []) fv.1 fv.2) })
        s).hashStore x = alookup s.hashStore x) ∧
    (fields ≠ [] →
      (alookup (fields.foldl
        (fun acc (fv : String × String) =>
          { acc with
            hashStore :=
              aset acc.hashStore key (aset ((alookup acc.hashStore key).getD []) fv.1 fv.2) })
        s).hashStore key).isSome)) := by
  induction fields generalizing s with
  | nil => exact ⟨rfl, rfl, rfl, rfl, fun hn => hn, fun _ _ => rfl, fun hne => absurd rfl hne⟩
  | cons f rest ih =>
    simp only [List.foldl_cons]
    obtain ⟨i1, i2, i3, i4, i5, i6, i7⟩ :=
      ih { s with
        hashStore := aset s.hashStore key (aset ((alookup s.hashStore key).getD []) f.1 f.2) }
    refine ⟨i1, i2, i3, i4, ?_, ?_, ?_⟩
    · intro hn
      exact i5 (adom_aset_nodup _ _ _ hn)
    · intro x hx
      rw [i6 x hx]
      simp only [alookup_aset]
      have : ¬ key = x := fun hh => hx hh.symm
      rw [if_neg this]
    · intro _
      cases hrest : rest with
      | nil =>
        subst hrest
        simp [alookup_aset]
      | cons g u =>
        subst hrest
        exact i7 (by simp)

/-- An RDB record that a save can produce: hash records carry at least one
field.  `load_from_rdb` accepts zero-field hash records, which is what
breaks the recency invariant (claim C9). -/
def RdbEntry.ok (e : RdbEntry) : Prop :=
  match e.value with
  | RdbValue.str _ => True
  | RdbValue.hash fields => fields ≠ []

theorem wf_setExpiration (s : KVStore) (k : String) (e : Int) (h : s.wf) :
    KVStore.wf { s with expirations := aset s.expirations k e } := by
  obtain ⟨h1, h2, h3, h4, h5, h6, h7⟩ := h
  exact ⟨h1, h2, adom_aset_nodup _ _ _ h3, h4, h5, h6, h7⟩

theorem wf_loadEntry (s : KVStore) (now : Int) (e : RdbEntry) (h : s.wf) (hok : e.ok) :
    (s.loadEntry now e).wf := by
  unfold KVStore.loadEntry
  cases hv : e.value with
  | str v =>
    obtain ⟨h1, h2, h3, h4, h5, h6, h7⟩ := h
    have hstep : KVStore.wf
        (({ s with store := aset s.store e.key v } : KVStore).updateLru e.key) := by
      apply wf_updateLru
      · refine ⟨adom_aset_nodup _ _ _ h1, h2, h3, h4, h5, h6, ?_⟩
        intro x hxk
        have hxk2 : ¬ e.key = x := fun hh => hxk hh.symm
        unfold KVStore.live
        simp only [alookup_aset, if_neg hxk2]
        exact h7 x
      · unfold KVStore.live
        simp only [alookup_aset, if_pos rfl]
        exact Or.inl rfl
    by_cases hexp : e.expiry > 0 ∧ e.expiry > now
    · rw [if_pos hexp]
      exact wf_setExpiration _ _ _ hstep
    · rw [if_neg hexp]
      exact hstep
  | hash fields =>
    have hne : fields ≠ [] := by
      unfold RdbEntry.ok at hok
      rw [hv] at hok
      exact hok
    obtain ⟨f1, f2, f3, f4, f5, f6, f7⟩ := loadHashFold_spec e.key fields s
    obtain ⟨h1, h2, h3, h4, h5, h6, h7⟩ := h
    have hstep : KVStore.wf
        ((fields.foldl
          (fun acc (fv : String × String) =>
            { acc with
              hashStore :=
                aset acc.hashStore e.key
                  (aset ((alookup acc.hashStore e.key).getD []) fv.1 fv.2) })
          s).updateLru e.key) := by
      apply wf_updateLru
      · rw [KVStore.wfExcept, f1, f2, f3, f4]
        refine ⟨h1, f5 h2, h3, h4, h5, h6, ?_⟩
        intro x hxk
        unfold KVStore.live
        rw [f1, f6 x hxk]
        exact h7 x
      · unfold KVStore.live
        exact Or.inr (f7 hne)
    by_cases hexp : e.expiry > 0 ∧ e.expiry > now
    · rw [if_pos hexp]
      exact wf_setExpiration _ _ _ hstep
    · rw [if_neg hexp]
      exact hstep

theorem wf_loadFold (now : Int) (file : List RdbEntry) :
    ∀ (s : KVStore), s.wf → (∀ e ∈ file, RdbEntry.ok e) →
      (file.foldl (fun acc e => acc.loadEntry now e) s).wf := by
  induction file with
  | nil => intro s hs _; exact hs
  | cons e t ih =>
    intro s hs hall
    simp only [List.foldl_cons]
    exact ih _ (wf_loadEntry s now e hs (hall e (List.mem_cons_self e t)))
      fun x hx => hall x (List.mem_cons_of_mem e hx)

theorem wf_loadFromRdb (dst : KVStore) (now : Int) (file : List RdbEntry)
    (hok : ∀ e ∈ file, e.ok) : (KVStore.loadFromRdb dst now file).wf := by
  unfold KVStore.loadFromRdb
  apply wf_evictIfNeeded
  exact wf_loadFold now file KVStore.empty wf_empty hok

theorem wf_replayFrame (stoiOpt : String → Option Int) (s : KVStore) (now : Int)
    (frame : List String) (h : s.wf) : (AOFLogger.replayFrame stoiOpt s now frame).wf := by
  cases frame with
  | nil => simpa [AOFLogger.replayFrame] using h
  | cons name args =>
    simp only [AOFLogger.replayFrame]
    split
    · split
      · exact wf_set _ _ _ _ h
      · exact h
    · split
      · split
        · exact wf_del _ _ _ h
        · exact h
      · split
        · split
          · split
            · exact wf_expire _ _ _ _ h
            · exact h
          · exact h
        · exact h

theorem wf_replay (stoiOpt : String → Option Int) (s : KVStore) (now : Int)
    (frames : List (List String)) (h : s.wf) : (AOFLogger.replay stoiOpt s now frames).wf := by
  unfold AOFLogger.replay
  induction frames generalizing s with
  | nil => exact h
  | cons f t ih =>
    simp only [List.foldl_cons]
    exact ih _ (wf_replayFrame stoiOpt s now f h)

/-- LRU eviction never touches the most-recent key: on a well-formed state
whose recency list starts with `k`, the eviction loop preserves `k`'s
presence in all three maps and keeps `k` at the front. -/
theorem evictLoop_front (fuel : Nat) (s : KVStore) (k : String)
    (h : s.wf) (hhead : s.lruOrder.head? = some k) :
    (KVStore.evictLoop fuel s).wf ∧
    (KVStore.evictLoop fuel s).lruOrder.head? = some k ∧
    alookup (KVStore.evictLoop fuel s).store k = alookup s.store k ∧
    alookup (KVStore.evictLoop fuel s).hashStore k = alookup s.hashStore k ∧
    alookup (KVStore.evictLoop fuel s).expirations k = alookup s.expirations k := by
  induction fuel generalizing s with
  | zero => exact ⟨h, hhead, rfl, rfl, rfl⟩
  | succ n ih =>
    unfold KVStore.evictLoop
    by_cases hc : s.liveSize > MAX_KEYS ∧ s.lruOrder ≠ []
    · rw [if_pos hc]
      obtain ⟨hsz, hne⟩ := hc
      cases horder : s.lruOrder with
      | nil => exact absurd horder hne
      | cons k0 rest =>
        have hk0 : k0 = k := by
          rw [horder] at hhead
          simpa using hhead
        subst hk0
        cases hrest : rest with
        | nil =>
          exfalso
          obtain ⟨h1, h2, h3, h4, h5, h6, h7⟩ := h
          have hb := liveSize_le_of_singleton s k0 h1 h2 h7 (by rw [horder, hrest])
          have : MAX_KEYS = 10000 := rfl
          omega
        | cons b t =>
          subst hrest
          have h4 := h.2.2.2.1
          rw [horder] at h4
          have hknotmem : k0 ∉ b :: t := (List.nodup_cons.mp h4).1
          have hlast : s.lruOrder.getLast? = (b :: t).getLast? := by
            rw [horder]
            exact List.getLast?_cons_cons
          have hbt : (b :: t) ≠ [] := by simp
          have hgl : (b :: t).getLast? = some ((b :: t).getLast hbt) :=
            List.getLast?_eq_getLast_of_ne_nil hbt
          set oldest := (b :: t).getLast hbt with holdest
          have holdmem : oldest ∈ b :: t := List.getLast_mem hbt
          have holdne : oldest ≠ k0 := by
            intro hh
            rw [hh] at holdmem
            exact hknotmem holdmem
          have hdrop : s.lruOrder.dropLast = k0 :: (b :: t).dropLast := by
            rw [horder]
            rfl
          have hstep : s.evictOne =
              { store := aerase s.store oldest
                hashStore := aerase s.hashStore oldest
                expirations := aerase s.expirations oldest
                lruOrder := s.lruOrder.dropLast
                lruMap := s.lruMap.erase oldest } := by
            unfold KVStore.evictOne
            rw [hlast, hgl]
          have hwf1 := wf_evictOne s h
          have hhead1 : s.evictOne.lruOrder.head? = some k0 := by
            rw [hstep, hdrop]
            rfl
          obtain ⟨j1, j2, j3, j4, j5⟩ := ih s.evictOne hwf1 hhead1
          have holdne2 : ¬ oldest = k0 := holdne
          refine ⟨j1, j2, ?_, ?_, ?_⟩
          · rw [j3, hstep]
            simp only [alookup_aerase, if_neg holdne2]
          · rw [j4, hstep]
            simp only [alookup_aerase, if_neg holdne2]
          · rw [j5, hstep]
            simp only [alookup_aerase, if_neg holdne2]
    · rw [if_neg hc]
      exact ⟨h, hhead, rfl, rfl, rfl⟩

/-- Core of `KVStore::set` after the expiry probe, spelled out on the
intermediate state (string stored, hash erased, recency touched, then
eviction). -/
theorem setCore_lookup (s1 : KVStore) (k v : String) (h1 : s1.wf) :
    alookup (KVStore.evictIfNeeded (KVStore.updateLru
      ⟨aset s1.store k v, aerase s1.hashStore k, s1.expirations, s1.lruOrder, s1.lruMap⟩ k)).store
      k = some v ∧
    alookup (KVStore.evictIfNeeded (KVStore.updateLru
      ⟨aset s1.store k v, aerase s1.hashStore k, s1.expirations, s1.lruOrder, s1.lruMap⟩ k)).hashStore
      k = none ∧
    alookup (KVStore.evictIfNeeded (KVStore.updateLru
      ⟨aset s1.store k v, aerase s1.hashStore k, s1.expirations, s1.lruOrder, s1.lruMap⟩ k)).expirations
      k = alookup s1.expirations k ∧
    (KVStore.evictIfNeeded (KVStore.updateLru
      ⟨aset s1.store k v, aerase s1.hashStore k, s1.expirations, s1.lruOrder, s1.lruMap⟩ k)).wf := by
  have hwf4 : (KVStore.updateLru
      ⟨aset s1.store k v, aerase s1.hashStore k, s1.expirations, s1.lruOrder, s1.lruMap⟩ k).wf := by
    apply wf_updateLru
    · obtain ⟨w1, w2, w3, w4, w5, w6, w7⟩ := h1
      refine ⟨adom_aset_nodup _ _ _ w1, adom_aerase_nodup _ _ w2, w3, w4, w5, w6, ?_⟩
      intro x hxk
      have hxk2 : ¬ k = x := fun hh => hxk hh.symm
      unfold KVStore.live
      simp only [alookup_aset, alookup_aerase, if_neg hxk2]
      exact w7 x
    · unfold KVStore.live
      simp only [alookup_aset, if_pos rfl]
      exact Or.inl rfl
  have hhead : (KVStore.updateLru
      ⟨aset s1.store k v, aerase s1.hashStore k, s1.expirations, s1.lruOrder, s1.lruMap⟩ k).lruOrder.head?
      = some k := rfl
  obtain ⟨j1, j2, j3, j4, j5⟩ := evictLoop_front
    ((KVStore.updateLru
      ⟨aset s1.store k v, aerase s1.hashStore k, s1.expirations, s1.lruOrder, s1.lruMap⟩ k).lruOrder.length)
    (KVStore.updateLru
      ⟨aset s1.store k v, aerase s1.hashStore k, s1.expirations, s1.lruOrder, s1.lruMap⟩ k)
    k hwf4 hhead
  unfold KVStore.evictIfNeeded
  refine ⟨?_, ?_, ?_, j1⟩
  · rw [j3]
    show alookup (aset s1.store k v) k = some v
    simp [alookup_aset]
  · rw [j4]
    show alookup (aerase s1.hashStore k) k = none
    simp [alookup_aerase]
  · rw [j5]
    rfl

/-- Contents of a well-formed store right after `KVStore::set`: the string
value is in place, any hash at the key is gone, and the expiration entry is
whatever survived the expiry probe — a still-live expiration is NOT
cleared. -/
theorem set_lookup (s : KVStore) (now : Int) (k v : String) (h : s.wf) :
    alookup (s.set now k v).store k = some v ∧
    alookup (s.set now k v).hashStore k = none ∧
    alookup (s.set now k v).expirations k =
      (match alookup s.expirations k with
       | some e => if now ≥ e then none else some e
       | none => none) ∧
    (s.set now k v).wf := by
  have hwf1 := wf_checkAndRemoveExpired s now k h
  obtain ⟨c1, c2, c3, c4⟩ := setCore_lookup (s.checkAndRemoveExpired now k) k v hwf1
  have heq : s.set now k v = KVStore.evictIfNeeded (KVStore.updateLru
      ⟨aset (s.checkAndRemoveExpired now k).store k v,
        aerase (s.checkAndRemoveExpired now k).hashStore k,
        (s.checkAndRemoveExpired now k).expirations,
        (s.checkAndRemoveExpired now k).lruOrder,
        (s.checkAndRemoveExpired now k).lruMap⟩ k) := rfl
  rw [heq]
  refine ⟨c1, c2, ?_, c4⟩
  rw [c3]
  cases he : alookup s.expirations k with
  | none => simp [KVStore.checkAndRemoveExpired, he]
  | some e =>
    by_cases hle : now ≥ e
    · simp [KVStore.checkAndRemoveExpired, he, hle, alookup_aerase]
    · simp [KVStore.checkAndRemoveExpired, he, hle]

/-! ## Decidable hypothesis bundles (for concrete witnesses) -/

theorem alookup_mem {α : Type} (l : List (String × α)) (k : String) (v : α)
    (h : alookup l k = some v) : (k, v) ∈ l := by
  induction l with
  | nil => simp at h
  | cons p t ih =>
    obtain ⟨a, b⟩ := p
    by_cases hak : a = k
    · subst hak
      simp only [alookup_cons, if_pos rfl] at h
      cases h
      exact List.mem_cons_self _ _
    · simp only [alookup_cons, if_neg hak] at h
      exact List.mem_cons_of_mem _ (ih h)

theorem aset_eq_append {α : Type} (l : List (String × α)) (k : String) (v : α)
    (h : alookup l k = none) : aset l k v = l ++ [(k, v)] := by
  induction l with
  | nil => rfl
  | cons p t ih =>
    obtain ⟨a, b⟩ := p
    by_cases hak : a = k
    · subst hak
      simp at h
    · simp only [alookup_cons, if_neg hak] at h
      simp only [aset, if_neg hak, List.cons_append]
      rw [ih h]

theorem alookup_append_last {α : Type} (H : List (String × α)) (k : String) (a : α)
    (h : alookup H k = none) : alookup (H ++ [(k, a)]) k = some a := by
  induction H with
  | nil => simp [alookup]
  | cons p t ih =>
    obtain ⟨x, y⟩ := p
    by_cases hxk : x = k
    · subst hxk
      simp at h
    · simp only [alookup_cons, if_neg hxk] at h
      simp only [List.cons_append, alookup_cons, if_neg hxk]
      exact ih h

theorem aset_append_last {α : Type} (H : List (String × α)) (k : String) (a b : α)
    (h : alookup H k = none) : aset (H ++ [(k, a)]) k b = H ++ [(k, b)] := by
  induction H with
  | nil => simp [aset]
  | cons p t ih =>
    obtain ⟨x, y⟩ := p
    by_cases hxk : x = k
    · subst hxk
      simp at h
    · simp only [alookup_cons, if_neg hxk] at h
      simp only [List.cons_append, aset, if_neg hxk]
      exact congrArg (List.cons (x, y)) (ih h)

/-- Decidable (list-bounded) form of `KVStore.wf`, suitable for `decide` on
concrete states. -/
def KVStore.wfD (s : KVStore) : Prop :=
  (adom s.store).Nodup ∧ (adom s.hashStore).Nodup ∧ (adom s.expirations).Nodup ∧
  s.lruOrder.Nodup ∧ s.lruMap.Nodup ∧
  (∀ x ∈ s.lruMap, x ∈ s.lruOrder) ∧ (∀ x ∈ s.lruOrder, x ∈ s.lruMap) ∧
  (∀ x ∈ s.lruOrder, s.live x) ∧
  (∀ x ∈ adom s.store, x ∈ s.lruOrder) ∧ (∀ x ∈ adom s.hashStore, x ∈ s.lruOrder)

instance (s : KVStore) : Decidable s.wfD := by
  unfold KVStore.wfD; infer_instance

theorem wfD_wf (s : KVStore) (h : s.wfD) : s.wf := by
  obtain ⟨h1, h2, h3, h4, h5, h6, h7, h8, h9, h10⟩ := h
  refine ⟨h1, h2, h3, h4, h5, ?_, ?_⟩
  · intro x
    exact ⟨fun hx => h6 x hx, fun hx => h7 x hx⟩
  · intro x
    constructor
    · intro hl
      rcases hl with hl | hl
      · exact h9 x ((mem_adom_iff_isSome _ _).mpr hl)
      · exact h10 x ((mem_adom_iff_isSome _ _).mpr hl)
    · intro hx
      exact h8 x hx

/-- No expiration is due at `now` (list-bounded, decidable). -/
def KVStore.noDue (s : KVStore) (now : Int) : Prop :=
  ∀ p ∈ s.expirations, (p : String × Int).2 > now

instance (s : KVStore) (now : Int) : Decidable (s.noDue now) := by
  unfold KVStore.noDue; infer_instance

/-- Under `noDue`, the expiry probe never removes anything. -/
theorem check_noop (s : KVStore) (now : Int) (k : String) (h : s.noDue now) :
    s.checkAndRemoveExpired now k = s := by
  unfold KVStore.checkAndRemoveExpired
  cases he : alookup s.expirations k with
  | none => rfl
  | some e =>
    have := h (k, e) (alookup_mem _ _ _ he)
    have hlt : ¬ now ≥ e := by omega
    simp [hlt]

/-- The expiry probe is also a no-op at a single key whose expiration entry
is absent or not yet due. -/
theorem check_noop_at (s : KVStore) (now : Int) (k : String)
    (h : ∀ e, alookup s.expirations k = some e → e > now) :
    s.checkAndRemoveExpired now k = s := by
  unfold KVStore.checkAndRemoveExpired
  cases he : alookup s.expirations k with
  | none => rfl
  | some e =>
    have := h e he
    have hlt : ¬ now ≥ e := by omega
    simp [hlt]

/-! ## Claim theorems -/

/-- C2: the claim says every executed HSET command is journaled to the AOF
and replicated; in the code `HSetCommand::execute` does call
`AOFLogger::append` and `ReplicationManager::replicate_command` on success
(reply `:1`), but both filter on `SET/DEL/EXPIRE` and `command_to_resp`
encodes `HSET` to the empty string, so the journal queue is left unchanged
and nothing is sent to any replica, while a successful `SET` is enqueued. -/
theorem c2_hset_not_journaled_or_replicated (q : List String) :
    (HSetCommand.execute ⟨CommandType.HSET, ["h", "f", "v"]⟩ KVStore.empty 0 q).1.reply
      = ":1\r\n" ∧
    (HSetCommand.execute ⟨CommandType.HSET, ["h", "f", "v"]⟩ KVStore.empty 0 q).2.2 = q ∧
    AOFLogger.append q ⟨CommandType.HSET, ["h", "f", "v"]⟩ = q ∧
    ReplicationManager.replicatePayload ⟨CommandType.HSET, ["h", "f", "v"]⟩ = Option.none ∧
    AOFLogger.append q ⟨CommandType.SET, ["k", "v"]⟩
      = q ++ ["*3\r\n$3\r\nSET\r\n$1\r\nk\r\n$1\r\nv\r\n"] := by
  refine ⟨rfl, rfl, rfl, rfl, ?_⟩
  rfl

/-- C4: the claim says a parse call that returns needs-more-data leaves the
internal buffer untouched, so a valid frame split at any byte position
parses once completed.  In the code `parse` erases the `*`, the count line,
and every examined element before discovering the buffer is short: splitting
`*1\r\n$4\r\nPING\r\n` after its first four bytes makes the first call
consume `*1\r\n` (buffer left empty, not untouched), and the second call —
on the remaining bytes — returns `ERR expected array` instead of the
frame the unsplit buffer yields. -/
theorem c4_parse_consumes_on_incomplete :
    RespParser.parse ("*1\r\n$4\r\nPING\r\n".data)
      = (RespOut.res ⟨true, ["PING"], ""⟩, []) ∧
    RespParser.parse ("*1\r\n".data) = (RespOut.res ⟨false, [], ""⟩, []) ∧
    ("*1\r\n".data ≠ []) ∧
    RespParser.parse ("$4\r\nPING\r\n".data)
      = (RespOut.res ⟨true, [], "ERR expected array"⟩, "$4\r\nPING\r\n".data) := by
  refine ⟨by decide, by decide, by decide, by decide⟩

/-- C5: the claim says the resolver maps every verb of the command table —
including HSET, HGET, INCR, DECR, INCRBY, DECRBY, APPEND, STRLEN — to its
kind.  `command_from_resp_array` has no branch for any of them (and the
`CommandType` enum of parser.hpp has no INCR/DECR/INCRBY/DECRBY/APPEND/STRLEN
enumerators at all), so they all resolve to `UNKNOWN`, while the nineteen
verbs that are in the if-chain resolve to their kinds. -/
theorem c5_resolver_unknown_for_hset_incr :
    command_from_resp_array ["HSET", "k", "f", "v"]
      = ⟨CommandType.UNKNOWN, ["k", "f", "v"]⟩ ∧
    command_from_resp_array ["HGET", "k", "f"] = ⟨CommandType.UNKNOWN, ["k", "f"]⟩ ∧
    command_from_resp_array ["INCR", "k"] = ⟨CommandType.UNKNOWN, ["k"]⟩ ∧
    command_from_resp_array ["STRLEN", "k"] = ⟨CommandType.UNKNOWN, ["k"]⟩ ∧
    command_from_resp_array ["EVAL"] = ⟨CommandType.EVAL, []⟩ ∧
    command_from_resp_array ["SET", "k", "v"] = ⟨CommandType.SET, ["k", "v"]⟩ := by
  refine ⟨by decide, by decide, by decide, by decide, by decide, by decide⟩

/-- C8: the claim (and test 4 of tests/test_protocol.cpp) says a frame with
array count 0 yields a complete empty command with no error; `parse` instead
treats `count <= 0` as `ERR invalid array length`.  The bulk-length `-1`
half of the claim does hold: a `$-1` element decodes to the empty byte
string inside a frame. -/
theorem c8_count_zero_protocol_error :
    RespParser.parse ("*0\r\n".data)
      = (RespOut.res ⟨true, [], "ERR invalid array length"⟩, []) ∧
    ("ERR invalid array length" ≠ "") ∧
    RespParser.parse ("*2\r\n$4\r\nPING\r\n$-1\r\n".data)
      = (RespOut.res ⟨true, ["PING", ""], ""⟩, []) := by
  refine ⟨by decide, by decide, by decide⟩

/-- C1 counterexample: `SET` does not clear a still-live expiration.  After
`SET k v; EXPIRE k 100; SET k w` (all at time 0), `TTL k` returns 100, not
the `-1` the claim requires. -/
theorem c1_counterexample_set_keeps_ttl :
    ((KVStore.set ((KVStore.set KVStore.empty 0 "k" "v").expire 0 "k" 100).2 0 "k" "w").ttl
        0 "k").1 = 100 ∧
    ((KVStore.set ((KVStore.set KVStore.empty 0 "k" "v").expire 0 "k" 100).2 0 "k" "w").ttl
        0 "k").1 ≠ -1 := by
  refine ⟨by decide, by decide⟩

/-- C7 counterexample: MGET renders every empty accumulated value as nil, so
a key holding the empty string is reported as nil instead of the empty bulk
`$0\r\n\r\n` the claim requires. -/
theorem c7_counterexample_empty_string_nil :
    (MGetCommand.execute ⟨CommandType.MGET, ["k"]⟩ (KVStore.set KVStore.empty 0 "k" "") 0).1.reply
      = "*1\r\n" ++ resp_nil ∧
    resp_bulk "" = "$0\r\n\r\n" ∧
    "*1\r\n" ++ resp_nil ≠ "*1\r\n" ++ resp_bulk "" := by
  refine ⟨by decide, by decide, by decide⟩

/-- C1 (amended): for every well-formed store, `SET k v` replies `+OK`,
stores the string (`GET k = v`, `EXISTS k = 1`, any Hash at `k` is dropped),
and the expiry probe removes only an already-due expiration: `TTL k`
afterwards is `-1` when `k` had no unexpired expiration, and the remaining
time of the earlier `EXPIRE` otherwise — `SET` does not clear a live TTL. -/
theorem c1_set_overwrites_value_ttl_preserved (S : KVStore) (now : Int) (k v : String)
    (rest : List String) (q : List String) (h : S.wfD) :
    (SetCommand.execute ⟨CommandType.SET, k :: v :: rest⟩ S now q).1.reply = resp_simple "OK" ∧
    ((S.set now k v).get now k).1 = some v ∧
    ((S.set now k v).existsKey now k).1 = true ∧
    alookup (S.set now k v).hashStore k = none ∧
    ((S.set now k v).ttl now k).1 =
      (match alookup S.expirations k with
       | some e => if now ≥ e then -1 else e - now
       | none => -1) := by
  obtain ⟨c1, c2, c3, c4⟩ := set_lookup S now k v (wfD_wf S h)
  have hnotdue : ∀ e, alookup (S.set now k v).expirations k = some e → e > now := by
    intro e he
    rw [c3] at he
    cases hS : alookup S.expirations k with
    | none => rw [hS] at he; simp at he
    | some e0 =>
      rw [hS] at he
      by_cases hle : now ≥ e0
      · simp [hle] at he
      · simp [hle] at he
        omega
  have hchk : (S.set now k v).checkAndRemoveExpired now k = S.set now k v :=
    check_noop_at _ now k hnotdue
  refine ⟨rfl, ?_, ?_, c2, ?_⟩
  · simp only [KVStore.get, hchk, c1]
  · simp only [KVStore.existsKey, hchk, c1, Option.isSome_some, Bool.true_or]
  · simp only [KVStore.ttl, hchk, c1, Option.isSome_some, Bool.true_or, if_pos, c3]
    cases hS : alookup S.expirations k with
    | none => simp
    | some e0 =>
      by_cases hle : now ≥ e0
      · simp [hle]
      · have hpos : e0 - now > 0 := by omega
        simp [hle, hpos]

/-- C1 witness: apply the amended theorem at a concrete store holding `k`
with a live `EXPIRE k 100`. -/
theorem c1_witness :
    (SetCommand.execute ⟨CommandType.SET, ["k", "w"]⟩
      ((KVStore.set KVStore.empty 0 "k" "v").expire 0 "k" 100).2 0 []).1.reply
      = resp_simple "OK" ∧
    ((((KVStore.set KVStore.empty 0 "k" "v").expire 0 "k" 100).2.set 0 "k" "w").get 0 "k").1
      = some "w" ∧
    ((((KVStore.set KVStore.empty 0 "k" "v").expire 0 "k" 100).2.set 0 "k" "w").existsKey
        0 "k").1 = true ∧
    alookup ((((KVStore.set KVStore.empty 0 "k" "v").expire 0 "k" 100).2.set 0 "k"
         "w")).hashStore "k" = none ∧
    ((((KVStore.set KVStore.empty 0 "k" "v").expire 0 "k" 100).2.set 0 "k" "w").ttl 0 "k").1
      = (match alookup ((KVStore.set KVStore.empty 0 "k" "v").expire 0 "k" 100).2.expirations
            "k" with
         | some e => if (0 : Int) ≥ e then -1 else e - 0
         | none => -1) :=
  c1_set_overwrites_value_ttl_preserved
    ((KVStore.set KVStore.empty 0 "k" "v").expire 0 "k" 100).2 0 "k" "w" [] [] (by decide)

/-- C10: for a live key `k` and any `n ≤ 0`, `EXPIRE k n` succeeds — the
handler replies `:1` — and records the absolute expiration `now + n`, which
is already due; the next store operation touching `k` (at any `now' ≥ now`)
removes it, so `EXISTS k` replies `:0` and `TTL k` replies `:-2`. -/
theorem c10_expire_nonpositive (S : KVStore) (now now2 : Int) (k secStr : String)
    (n : Int) (q : List String)
    (hstoi : cppStoi secStr.data = Option.some n) (hn : n ≤ 0)
    (happlied : (S.expire now k n).1 = true) (hmono : now ≤ now2) :
    (ExpireCommand.execute ⟨CommandType.EXPIRE, [k, secStr]⟩ S now q).1.reply = ":1\r\n" ∧
    alookup (S.expire now k n).2.expirations k = some (now + n) ∧
    ((S.expire now k n).2.existsKey now2 k).1 = false ∧
    ((S.expire now k n).2.ttl now2 k).1 = -2 := by
  have hpair : S.expire now k n = (true, (S.expire now k n).2) := by
    rw [← happlied]
  have hE : alookup (S.expire now k n).2.expirations k = some (now + n) := by
    cases hcond : ((alookup (S.checkAndRemoveExpired now k).store k).isSome
        || (alookup (S.checkAndRemoveExpired now k).hashStore k).isSome) with
    | false =>
      exfalso
      simp [KVStore.expire, hcond] at happlied
    | true =>
      simp [KVStore.expire, hcond, alookup_aset]
  have hge : now2 ≥ now + n := by omega
  refine ⟨?_, hE, ?_, ?_⟩
  · simp only [ExpireCommand.execute, hstoi]
    rw [hpair]
    rfl
  · simp [KVStore.existsKey, KVStore.checkAndRemoveExpired, hE, hge, alookup_aerase]
  · simp [KVStore.ttl, KVStore.checkAndRemoveExpired, hE, hge, alookup_aerase]

/-- C10 witness: `EXPIRE k -5` on a store holding `k`, probed at the same
instant. -/
theorem c10_witness :
    cppStoi "-5".data = Option.some (-5) ∧ (-5 : Int) ≤ 0 ∧
    ((KVStore.set KVStore.empty 0 "k" "v").expire 0 "k" (-5)).1 = true ∧ (0 : Int) ≤ 0 ∧
    ((ExpireCommand.execute ⟨CommandType.EXPIRE, ["k", "-5"]⟩
        (KVStore.set KVStore.empty 0 "k" "v") 0 []).1.reply = ":1\r\n" ∧
      alookup ((KVStore.set KVStore.empty 0 "k" "v").expire 0 "k" (-5)).2.expirations "k"
        = some (0 + (-5)) ∧
      (((KVStore.set KVStore.empty 0 "k" "v").expire 0 "k" (-5)).2.existsKey 0 "k").1 = false ∧
      (((KVStore.set KVStore.empty 0 "k" "v").expire 0 "k" (-5)).2.ttl 0 "k").1 = -2) :=
  ⟨by decide, by decide, by decide, by decide,
    c10_expire_nonpositive (KVStore.set KVStore.empty 0 "k" "v") 0 0 "k" "-5" (-5) []
      (by decide) (by decide) (by decide) (by decide)⟩

/-- C6: the type asymmetry.  (a) `HSET` on a key holding a String (whose
expiration, if any, is not yet due) replies `WRONGTYPE` and leaves the
entire store state — in particular the String value — untouched.
(b) `SET` on a key holding a Hash replies `+OK`, drops the hash, and a
subsequent `HGET` on the key replies `WRONGTYPE`. -/
theorem c6_type_asymmetry (S1 S2 : KVStore) (now : Int) (k f v w : String)
    (q : List String)
    (hstr : alookup S1.store k = some w)
    (hdue1 : ∀ e, alookup S1.expirations k = some e → e > now)
    (h2 : S2.wfD) (hhash : (alookup S2.hashStore k).isSome = true) :
    HSetCommand.execute ⟨CommandType.HSET, [k, f, v]⟩ S1 now q
      = (⟨resp_err WRONGTYPE_MSG, false, false⟩, S1, q) ∧
    alookup (HSetCommand.execute ⟨CommandType.HSET, [k, f, v]⟩ S1 now q).2.1.store k
      = some w ∧
    (SetCommand.execute ⟨CommandType.SET, [k, v]⟩ S2 now q).1.reply = resp_simple "OK" ∧
    alookup (S2.set now k v).hashStore k = none ∧
    (HGetCommand.execute ⟨CommandType.HGET, [k, f]⟩ (S2.set now k v) now).1.reply
      = resp_err WRONGTYPE_MSG := by
  have hchk1 : S1.checkAndRemoveExpired now k = S1 := check_noop_at _ now k hdue1
  have hpart1 : HSetCommand.execute ⟨CommandType.HSET, [k, f, v]⟩ S1 now q
      = (⟨resp_err WRONGTYPE_MSG, false, false⟩, S1, q) := by
    simp [HSetCommand.execute, KVStore.typeOf, hchk1, hstr]
  obtain ⟨c1, c2, c3, c4⟩ := set_lookup S2 now k v (wfD_wf S2 h2)
  have hdue2 : ∀ e, alookup (S2.set now k v).expirations k = some e → e > now := by
    intro e he
    rw [c3] at he
    cases hS : alookup S2.expirations k with
    | none => rw [hS] at he; simp at he
    | some e0 =>
      rw [hS] at he
      by_cases hle : now ≥ e0
      · simp [hle] at he
      · simp [hle] at he
        omega
  have hchk2 : (S2.set now k v).checkAndRemoveExpired now k = S2.set now k v :=
    check_noop_at _ now k hdue2
  refine ⟨hpart1, ?_, rfl, c2, ?_⟩
  · rw [hpart1, hstr]
  · simp [HGetCommand.execute, KVStore.typeOf, hchk2, c1]

/-- C6 witness: `S1` holds the string `"w"` at `k` (no TTL); `S2` holds a
hash at `k`. -/
theorem c6_witness :
    alookup (KVStore.set KVStore.empty 0 "k" "w").store "k" = some "w" ∧
    (∀ e, alookup (KVStore.set KVStore.empty 0 "k" "w").expirations "k" = some e → e > 0) ∧
    KVStore.wfD ((KVStore.hset KVStore.empty 0 "k" "g" "x").2) ∧
    (alookup ((KVStore.hset KVStore.empty 0 "k" "g" "x").2).hashStore "k").isSome = true ∧
    (HSetCommand.execute ⟨CommandType.HSET, ["k", "f", "v"]⟩
        (KVStore.set KVStore.empty 0 "k" "w") 0 []
      = (⟨resp_err WRONGTYPE_MSG, false, false⟩, KVStore.set KVStore.empty 0 "k" "w", []) ∧
    alookup (HSetCommand.execute ⟨CommandType.HSET, ["k", "f", "v"]⟩
        (KVStore.set KVStore.empty 0 "k" "w") 0 []).2.1.store "k" = some "w" ∧
    (SetCommand.execute ⟨CommandType.SET, ["k", "v"]⟩
        ((KVStore.hset KVStore.empty 0 "k" "g" "x").2) 0 []).1.reply = resp_simple "OK" ∧
    alookup (((KVStore.hset KVStore.empty 0 "k" "g" "x").2).set 0 "k" "v").hashStore "k"
      = none ∧
    (HGetCommand.execute ⟨CommandType.HGET, ["k", "f"]⟩
        (((KVStore.hset KVStore.empty 0 "k" "g" "x").2).set 0 "k" "v") 0).1.reply
      = resp_err WRONGTYPE_MSG) :=
  ⟨by decide, by decide, by decide, by decide,
    c6_type_asymmetry (KVStore.set KVStore.empty 0 "k" "w")
      ((KVStore.hset KVStore.empty 0 "k" "g" "x").2) 0 "k" "f" "v" "w" []
      (by decide) (by decide) (by decide) (by decide)⟩

/-- The MGET per-key loop, under `noDue`: each iteration only touches the
recency structures, and appends the stored string (or `""`) for the key. -/
theorem mget_fold_spec (now : Int) (args : List String) :
    ∀ (S A : KVStore) (vals : List String),
      A.store = S.store → A.hashStore = S.hashStore → A.expirations = S.expirations →
      S.noDue now →
      (args.foldl
        (fun (acc : List String × KVStore) (key : String) =>
          let tkv := acc.2.typeOf now key
          if tkv.1 = KeyType.hash then (acc.1 ++ [""], tkv.2)
          else
            match tkv.2.get now key with
            | (Option.some v, kv2) => (acc.1 ++ [v], kv2)
            | (Option.none, kv2) => (acc.1 ++ [""], kv2))
        (vals, A)).1 = vals ++ args.map fun k => (alookup S.store k).getD "" := by
  induction args with
  | nil =>
    intro S A vals _ _ _ _
    simp
  | cons key rest ih =>
    intro S A vals hst hhs hex hnd
    have hndA : A.noDue now := by
      unfold KVStore.noDue
      rw [hex]
      exact hnd
    have hchk : A.checkAndRemoveExpired now key = A := check_noop _ now key hndA
    have hlu : (A.updateLru key).store = S.store ∧ (A.updateLru key).hashStore = S.hashStore ∧
        (A.updateLru key).expirations = S.expirations := by
      unfold KVStore.updateLru
      exact ⟨hst, hhs, hex⟩
    obtain ⟨b1, b2, b3⟩ := hlu
    have hsk : alookup S.store key = alookup A.store key := by rw [hst]
    simp only [List.foldl_cons]
    cases hsl : alookup A.store key with
    | some v =>
      have hty : A.typeOf now key = (KeyType.str, A) := by
        simp [KVStore.typeOf, hchk, hsl]
      have hget : A.get now key = (Option.some v, A.updateLru key) := by
        simp [KVStore.get, hchk, hsl]
      simp only [hty, hget]
      rw [if_neg (by decide)]
      rw [ih S (A.updateLru key) (vals ++ [v]) b1 b2 b3 hnd]
      simp [hsk, hsl]
    | none =>
      cases hhl : alookup A.hashStore key with
      | some fields =>
        have hty : A.typeOf now key = (KeyType.hash, A) := by
          simp [KVStore.typeOf, hchk, hsl, hhl]
        simp only [hty]
        rw [if_pos trivial]
        rw [ih S A (vals ++ [""]) hst hhs hex hnd]
        simp [hsk, hsl]
      | none =>
        have hty : A.typeOf now key = (KeyType.none, A) := by
          simp [KVStore.typeOf, hchk, hsl, hhl]
        have hget : A.get now key = (Option.none, A) := by
          simp [KVStore.get, hchk, hsl]
        simp only [hty, hget]
        rw [if_neg (by decide)]
        rw [ih S A (vals ++ [""]) hst hhs hex hnd]
        simp [hsk, hsl]

/-- C7 (amended): when no expiration is due, MGET replies an array of the
argument length where position i is nil if key i is absent, holds a Hash,
or holds the empty string, and is the bulk of the stored string otherwise
(the handler renders every empty accumulated value as nil). -/
theorem c7_mget_reply_shape (S : KVStore) (now : Int) (key0 : String) (restArgs : List String)
    (hnd : S.noDue now) :
    (MGetCommand.execute ⟨CommandType.MGET, key0 :: restArgs⟩ S now).1.reply =
      "*" ++ toString (key0 :: restArgs).length ++ "\r\n" ++
        String.join ((key0 :: restArgs).map fun k =>
          match alookup S.store k with
          | some v => if v = "" then resp_nil else resp_bulk v
          | none => resp_nil) := by
  have hfold := mget_fold_spec now (key0 :: restArgs) S S [] rfl rfl rfl hnd
  simp only [MGetCommand.execute]
  rw [hfold]
  simp only [List.nil_append, List.length_map, List.map_map]
  have hl : List.map
      ((fun val => if val = "" then resp_nil else resp_bulk val)
        ∘ fun k => (alookup S.store k).getD "") (key0 :: restArgs)
      = List.map (fun k =>
          match alookup S.store k with
          | some v => if v = "" then resp_nil else resp_bulk v
          | none => resp_nil) (key0 :: restArgs) := by
    apply List.map_congr_left
    intro k _
    simp only [Function.comp]
    cases hk : alookup S.store k with
    | none => simp
    | some v =>
      by_cases hv : v = ""
      · simp [hv]
      · simp [hv]
  rw [hl]

/-- C7 witness: a store with a non-empty string, a hash, and a missing key. -/
theorem c7_witness :
    KVStore.noDue ((KVStore.hset (KVStore.set KVStore.empty 0 "a" "1") 0 "b" "f" "x").2) 0 ∧
    (MGetCommand.execute ⟨CommandType.MGET, ["a", "b", "c"]⟩
        ((KVStore.hset (KVStore.set KVStore.empty 0 "a" "1") 0 "b" "f" "x").2) 0).1.reply =
      "*" ++ toString (["a", "b", "c"] : List String).length ++ "\r\n" ++
        String.join ((["a", "b", "c"] : List String).map fun k =>
          match alookup ((KVStore.hset (KVStore.set KVStore.empty 0 "a" "1") 0 "b" "f"
              "x").2).store k with
          | some v => if v = "" then resp_nil else resp_bulk v
          | none => resp_nil) :=
  ⟨by decide,
    c7_mget_reply_shape ((KVStore.hset (KVStore.set KVStore.empty 0 "a" "1") 0 "b" "f" "x").2)
      0 "a" ["b", "c"] (by decide)⟩

instance (e : RdbEntry) : Decidable e.ok :=
  match e with
  | ⟨_, RdbValue.str _, _⟩ => Decidable.isTrue trivial
  | ⟨_, RdbValue.hash fl, _⟩ => (inferInstance : Decidable (fl ≠ []))

/-- C9 counterexample: `load_from_rdb` accepts a Hash record with zero
fields; it registers the key in the recency list and the key-to-node index
(`update_lru` runs) without ever inserting a value, so a dead key sits in
both structures. -/
theorem c9_counterexample_zero_field_hash :
    "k" ∈ (KVStore.loadFromRdb KVStore.empty 0 [⟨"k", RdbValue.hash [], 0⟩]).lruOrder ∧
    "k" ∈ (KVStore.loadFromRdb KVStore.empty 0 [⟨"k", RdbValue.hash [], 0⟩]).lruMap ∧
    ¬ (KVStore.loadFromRdb KVStore.empty 0 [⟨"k", RdbValue.hash [], 0⟩]).live "k" ∧
    ¬ (KVStore.loadFromRdb KVStore.empty 0 [⟨"k", RdbValue.hash [], 0⟩]).lruInvariant := by
  refine ⟨by decide, by decide, by decide, ?_⟩
  intro hinv
  have hdead : ¬ (KVStore.loadFromRdb KVStore.empty 0 [⟨"k", RdbValue.hash [], 0⟩]).live "k" :=
    by decide
  exact (hinv.2 "k" hdead).1 (by decide)

/-- C9 (amended): starting from a well-formed state, every store operation —
set, get, del, exists, keys, expire, ttl, hset, hget, snapshot save, snapshot
load (provided every Hash record of the loaded file carries at least one
field, as every SAVE-produced file does), and journal replay — leaves every
live key exactly once in the recency list and exactly once in the key-to-node
index, with no dead key in either. -/
theorem c9_lru_invariant_preserved (S : KVStore) (now : Int) (k f v : String) (n : Int)
    (D : KVStore) (file : List RdbEntry) (stoiOpt : String → Option Int)
    (frames : List (List String))
    (h : S.wfD) (hfile : ∀ e ∈ file, e.ok) :
    (S.set now k v).lruInvariant ∧
    (S.get now k).2.lruInvariant ∧
    (S.del now k).2.lruInvariant ∧
    (S.existsKey now k).2.lruInvariant ∧
    (S.keysOp now).2.lruInvariant ∧
    (S.expire now k n).2.lruInvariant ∧
    (S.ttl now k).2.lruInvariant ∧
    (S.hset now k f v).2.lruInvariant ∧
    (S.hget now k f).2.lruInvariant ∧
    (S.saveToRdb now).2.lruInvariant ∧
    (KVStore.loadFromRdb D now file).lruInvariant ∧
    (AOFLogger.replay stoiOpt S now frames).lruInvariant := by
  have hw := wfD_wf S h
  exact ⟨wf_lruInvariant _ (wf_set S now k v hw),
    wf_lruInvariant _ (wf_get S now k hw),
    wf_lruInvariant _ (wf_del S now k hw),
    wf_lruInvariant _ (wf_existsKey S now k hw),
    wf_lruInvariant _ (wf_keysOp S now hw),
    wf_lruInvariant _ (wf_expire S now k n hw),
    wf_lruInvariant _ (wf_ttl S now k hw),
    wf_lruInvariant _ (wf_hset S now k f v hw),
    wf_lruInvariant _ (wf_hget S now k f hw),
    wf_lruInvariant _ (wf_saveToRdb S now hw),
    wf_lruInvariant _ (wf_loadFromRdb D now file hfile),
    wf_lruInvariant _ (wf_replay stoiOpt S now frames hw)⟩

/-- C9 witness: a concrete two-key state, a one-record file, and a short
journal. -/
theorem c9_witness :
    KVStore.wfD (((KVStore.set KVStore.empty 0 "a" "1").hset 0 "b" "f" "x").2) ∧
    (∀ e ∈ [(⟨"h", RdbValue.hash [("f", "v")], 0⟩ : RdbEntry)], e.ok) ∧
    (((((KVStore.set KVStore.empty 0 "a" "1").hset 0 "b" "f" "x").2).set 0 "a" "2").lruInvariant ∧
    ((((KVStore.set KVStore.empty 0 "a" "1").hset 0 "b" "f" "x").2).get 0 "a").2.lruInvariant ∧
    ((((KVStore.set KVStore.empty 0 "a" "1").hset 0 "b" "f" "x").2).del 0 "a").2.lruInvariant ∧
    ((((KVStore.set KVStore.empty 0 "a" "1").hset 0 "b" "f" "x").2).existsKey 0 "a").2.lruInvariant ∧
    ((((KVStore.set KVStore.empty 0 "a" "1").hset 0 "b" "f" "x").2).keysOp 0).2.lruInvariant ∧
    ((((KVStore.set KVStore.empty 0 "a" "1").hset 0 "b" "f" "x").2).expire 0 "a" 5).2.lruInvariant ∧
    ((((KVStore.set KVStore.empty 0 "a" "1").hset 0 "b" "f" "x").2).ttl 0 "a").2.lruInvariant ∧
    ((((KVStore.set KVStore.empty 0 "a" "1").hset 0 "b" "f" "x").2).hset 0 "a" "f" "2").2.lruInvariant ∧
    ((((KVStore.set KVStore.empty 0 "a" "1").hset 0 "b" "f" "x").2).hget 0 "a" "f").2.lruInvariant ∧
    ((((KVStore.set KVStore.empty 0 "a" "1").hset 0 "b" "f" "x").2).saveToRdb 0).2.lruInvariant ∧
    (KVStore.loadFromRdb KVStore.empty 0
      [⟨"h", RdbValue.hash [("f", "v")], 0⟩]).lruInvariant ∧
    (AOFLogger.replay (fun s => cppStoi s.data) (((KVStore.set KVStore.empty 0 "a" "1").hset 0 "b" "f" "x").2) 0
      [["SET", "c", "3"], ["EXPIRE", "c", "10"]]).lruInvariant) :=
  ⟨by decide, by decide,
    c9_lru_invariant_preserved (((KVStore.set KVStore.empty 0 "a" "1").hset 0 "b" "f" "x").2) 0 "a" "f" "2" 5
      KVStore.empty [⟨"h", RdbValue.hash [("f", "v")], 0⟩] (fun s => cppStoi s.data)
      [["SET", "c", "3"], ["EXPIRE", "c", "10"]] (by decide) (by decide)⟩

/-! ## Snapshot round-trip machinery (claim C3) -/

theorem mem_aerase {α : Type} (l : List (String × α)) (k : String) (p : String × α) :
    p ∈ aerase l k ↔ p ∈ l ∧ p.1 ≠ k := by
  induction l with
  | nil => simp [aerase]
  | cons q t ih =>
    obtain ⟨a, b⟩ := q
    simp only [aerase]
    by_cases hak : a = k
    · subst hak
      rw [if_pos rfl, ih, List.mem_cons]
      constructor
      · rintro ⟨hp, hne⟩
        exact ⟨Or.inr hp, hne⟩
      · rintro ⟨hp | hp, hne⟩
        · exfalso
          rw [hp] at hne
          exact hne rfl
        · exact ⟨hp, hne⟩
    · rw [if_neg hak]
      simp only [List.mem_cons, ih]
      constructor
      · rintro (hp | ⟨hp, hne⟩)
        · subst hp
          exact ⟨Or.inl rfl, fun hh => hak hh⟩
        · exact ⟨Or.inr hp, hne⟩
      · rintro ⟨hp | hp, hne⟩
        · exact Or.inl hp
        · exact Or.inr ⟨hp, hne⟩

theorem aerase_length_le {α : Type} (l : List (String × α)) (k : String) :
    (aerase l k).length ≤ l.length := by
  induction l with
  | nil => simp [aerase]
  | cons q t ih =>
    obtain ⟨a, b⟩ := q
    simp only [aerase]
    by_cases hak : a = k
    · rw [if_pos hak]
      simp only [List.length_cons]
      omega
    · rw [if_neg hak]
      simp only [List.length_cons]
      omega

theorem alookup_append {α : Type} (l1 l2 : List (String × α)) (k : String) :
    alookup (l1 ++ l2) k =
      (match alookup l1 k with
       | some v => some v
       | none => alookup l2 k) := by
  induction l1 with
  | nil => simp
  | cons p t ih =>
    obtain ⟨a, b⟩ := p
    by_cases hak : a = k
    · simp [alookup, hak]
    · simp [alookup, hak, ih]

theorem evictLoop_noop (fuel : Nat) (s : KVStore) (h : s.liveSize ≤ MAX_KEYS) :
    KVStore.evictLoop fuel s = s := by
  cases fuel with
  | zero => rfl
  | succ n =>
    unfold KVStore.evictLoop
    rw [if_neg]
    intro hc
    have := hc.1
    omega

/-- The reachable-state side conditions that claim C3 needs, in decidable
list-bounded form: string and hash keyspaces are disjoint, every expiration
entry belongs to a live key, every hash is non-empty with duplicate-free
fields, and the store is within the eviction bound. -/
def KVStore.snapshotReady (s : KVStore) : Prop :=
  (∀ p ∈ s.store, ∀ q ∈ s.hashStore,
    (p : String × String).1 ≠ (q : String × List (String × String)).1) ∧
  (∀ p ∈ s.expirations, s.live (p : String × Int).1) ∧
  (∀ q ∈ s.hashStore, (q : String × List (String × String)).2 ≠ []) ∧
  (∀ q ∈ s.hashStore, (adom (q : String × List (String × String)).2).Nodup) ∧
  s.liveSize ≤ MAX_KEYS

instance (s : KVStore) : Decidable s.snapshotReady := by
  unfold KVStore.snapshotReady; infer_instance

/-- One expiry probe keeps `snapshotReady` (it only erases whole keys,
atomically across the three maps). -/
theorem snapshotReady_check (s : KVStore) (now : Int) (k : String)
    (h : s.snapshotReady) : (s.checkAndRemoveExpired now k).snapshotReady := by
  obtain ⟨h1, h2, h3, h4, h5⟩ := h
  unfold KVStore.checkAndRemoveExpired
  cases he : alookup s.expirations k with
  | none => exact ⟨h1, h2, h3, h4, h5⟩
  | some e =>
    by_cases hle : now ≥ e
    · simp only [if_pos hle]
      refine ⟨?_, ?_, ?_, ?_, ?_⟩
      · intro p hp q hq
        exact h1 p ((mem_aerase _ _ _).mp hp).1 q ((mem_aerase _ _ _).mp hq).1
      · intro p hp
        obtain ⟨hpin, hpne⟩ := (mem_aerase _ _ _).mp hp
        have hlv := h2 p hpin
        unfold KVStore.live at hlv ⊢
        simp only [alookup_aerase]
        have hkp : ¬ k = p.1 := fun hh => hpne hh.symm
        rw [if_neg hkp, if_neg hkp]
        exact hlv
      · intro q hq
        exact h3 q ((mem_aerase _ _ _).mp hq).1
      · intro q hq
        exact h4 q ((mem_aerase _ _ _).mp hq).1
      · unfold KVStore.liveSize at h5 ⊢
        show (aerase s.store k).length + (aerase s.hashStore k).length ≤ MAX_KEYS
        have := aerase_length_le s.store k
        have := aerase_length_le s.hashStore k
        omega
    · simp only [if_neg hle]
      exact ⟨h1, h2, h3, h4, h5⟩

theorem snapshotReady_foldl_check (s : KVStore) (now : Int) (ks : List String)
    (h : s.snapshotReady) :
    (ks.foldl (fun acc k => acc.checkAndRemoveExpired now k) s).snapshotReady := by
  induction ks generalizing s with
  | nil => exact h
  | cons k t ih => exact ih _ (snapshotReady_check s now k h)

theorem snapshotReady_saveToRdb (s : KVStore) (now : Int) (h : s.snapshotReady) :
    (s.saveToRdb now).2.snapshotReady :=
  snapshotReady_foldl_check s now _ h

theorem loadHashFold_build_aux (key : String) (fields : List (String × String)) :
    ∀ (s : KVStore) (H : List (String × List (String × String))) (acc : List (String × String)),
      s.hashStore = H ++ [(key, acc)] → alookup H key = none →
      (adom (acc ++ fields)).Nodup →
      (fields.foldl
        (fun accS (fv : String × String) =>
          { accS with
            hashStore :=
              aset accS.hashStore key (aset ((alookup accS.hashStore key).getD []) fv.1 fv.2) })
        s).hashStore = H ++ [(key, acc ++ fields)] := by
  induction fields with
  | nil =>
    intro s H acc hs hH _
    simpa using hs
  | cons f rest ih =>
    intro s H acc hs hH hnd
    simp only [List.foldl_cons]
    have hlook : alookup s.hashStore key = some acc := by
      rw [hs]
      exact alookup_append_last H key acc hH
    have hfnot : alookup acc f.1 = none := by
      have hadom : adom (acc ++ f :: rest) = adom acc ++ f.1 :: adom rest := by
        unfold adom
        simp
      rw [hadom] at hnd
      have hnotmem : f.1 ∉ adom acc := by
        intro hmem
        have := (List.disjoint_of_nodup_append hnd) hmem
        simp at this
      cases hv : alookup acc f.1 with
      | none => rfl
      | some v =>
        exfalso
        exact hnotmem ((mem_adom_iff_isSome _ _).mpr (by rw [hv]; rfl))
    have hstep : aset ((alookup s.hashStore key).getD []) f.1 f.2 = acc ++ [f] := by
      rw [hlook]
      show aset acc f.1 f.2 = acc ++ [f]
      rw [aset_eq_append _ _ _ hfnot]
    have hset2 : aset s.hashStore key (acc ++ [f]) = H ++ [(key, acc ++ [f])] := by
      rw [hs]
      exact aset_append_last H key acc _ hH
    have hnd2 : (adom ((acc ++ [f]) ++ rest)).Nodup := by
      rw [List.append_assoc]
      simpa using hnd
    have := ih
      { s with hashStore := aset s.hashStore key (aset ((alookup s.hashStore key).getD []) f.1 f.2) }
      H (acc ++ [f]) (by rw [hstep, hset2]) hH hnd2
    rw [this, List.append_assoc]
    simp

theorem loadHashFold_build (key : String) (fields : List (String × String)) (s : KVStore)
    (h0 : alookup s.hashStore key = none) (hne : fields ≠ []) (hnd : (adom fields).Nodup) :
    (fields.foldl
      (fun accS (fv : String × String) =>
        { accS with
          hashStore :=
            aset accS.hashStore key (aset ((alookup accS.hashStore key).getD []) fv.1 fv.2) })
      s).hashStore = s.hashStore ++ [(key, fields)] := by
  cases fields with
  | nil => exact absurd rfl hne
  | cons f rest =>
    simp only [List.foldl_cons]
    have hstep : aset ((alookup s.hashStore key).getD []) f.1 f.2 = [f] := by
      rw [h0]
      show aset ([] : List (String × String)) f.1 f.2 = [f]
      rfl
    have hset1 : aset s.hashStore key [f] = s.hashStore ++ [(key, [f])] :=
      aset_eq_append _ _ _ h0
    have := loadHashFold_build_aux key rest
      { s with hashStore := aset s.hashStore key (aset ((alookup s.hashStore key).getD []) f.1 f.2) }
      s.hashStore [f] (by rw [hstep, hset1]) h0 (by simpa using hnd)
    rw [this]
    rfl

/-- Loading one fresh record appends its value (and, when still in the
future, its expiration) to the respective map. -/
theorem loadEntry_append (A : KVStore) (now : Int) (e : RdbEntry)
    (hs : alookup A.store e.key = none) (hh : alookup A.hashStore e.key = none)
    (hx : alookup A.expirations e.key = none)
    (hok : e.ok) (hfnd : ∀ fl, e.value = RdbValue.hash fl → (adom fl).Nodup) :
    (A.loadEntry now e).store
      = A.store ++ (match e.value with
        | RdbValue.str v => [(e.key, v)]
        | RdbValue.hash _ => []) ∧
    (A.loadEntry now e).hashStore
      = A.hashStore ++ (match e.value with
        | RdbValue.str _ => []
        | RdbValue.hash fl => [(e.key, fl)]) ∧
    (A.loadEntry now e).expirations
      = A.expirations
        ++ (if e.expiry > 0 ∧ e.expiry > now then [(e.key, e.expiry)] else []) := by
  unfold KVStore.loadEntry
  cases hv : e.value with
  | str v =>
    have hstore : aset A.store e.key v = A.store ++ [(e.key, v)] := aset_eq_append _ _ _ hs
    by_cases hexp : e.expiry > 0 ∧ e.expiry > now
    · simp only [if_pos hexp]
      refine ⟨?_, ?_, ?_⟩
      · show aset A.store e.key v = A.store ++ [(e.key, v)]
        exact hstore
      · show A.hashStore = A.hashStore ++ []
        simp
      · show aset A.expirations e.key e.expiry = A.expirations ++ [(e.key, e.expiry)]
        exact aset_eq_append _ _ _ hx
    · simp only [if_neg hexp]
      refine ⟨hstore, by simp [KVStore.updateLru], by simp [KVStore.updateLru]⟩
  | hash fl =>
    have hne : fl ≠ [] := by
      unfold RdbEntry.ok at hok
      rw [hv] at hok
      exact hok
    have hnd := hfnd fl hv
    obtain ⟨f1, f2, f3, f4, f5, f6, f7⟩ := loadHashFold_spec e.key fl A
    have hbuild := loadHashFold_build e.key fl A hh hne hnd
    by_cases hexp : e.expiry > 0 ∧ e.expiry > now
    · simp only [if_pos hexp]
      refine ⟨by simpa using f1, by simpa using hbuild, ?_⟩
      show aset (KVStore.updateLru _ e.key).expirations e.key e.expiry = _
      have : (KVStore.updateLru
          (fl.foldl
            (fun accS (fv : String × String) =>
              { accS with
                hashStore :=
                  aset accS.hashStore e.key
                    (aset ((alookup accS.hashStore e.key).getD []) fv.1 fv.2) })
            A) e.key).expirations = A.expirations := f2
      rw [this]
      exact aset_eq_append _ _ _ hx
    · simp only [if_neg hexp]
      refine ⟨by simpa using f1, by simpa using hbuild, by simpa using f2⟩

/-- The body of `load_from_rdb` over a file with fresh, duplicate-free keys:
it appends the string records, the (non-empty, duplicate-free) hash records,
and the still-future expirations, in file order. -/
theorem loadFold_append (now : Int) (file : List RdbEntry) :
    ∀ (A : KVStore),
      (file.map RdbEntry.key).Nodup →
      (∀ e ∈ file, alookup A.store e.key = none ∧ alookup A.hashStore e.key = none ∧
        alookup A.expirations e.key = none) →
      (∀ e ∈ file, e.ok) →
      (∀ e ∈ file, ∀ fl, e.value = RdbValue.hash fl → (adom fl).Nodup) →
      (file.foldl (fun acc x => acc.loadEntry now x) A).store
        = A.store ++ file.filterMap (fun e =>
            match e.value with
            | RdbValue.str v => some (e.key, v)
            | RdbValue.hash _ => none) ∧
      (file.foldl (fun acc x => acc.loadEntry now x) A).hashStore
        = A.hashStore ++ file.filterMap (fun e =>
            match e.value with
            | RdbValue.str _ => none
            | RdbValue.hash fl => some (e.key, fl)) ∧
      (file.foldl (fun acc x => acc.loadEntry now x) A).expirations
        = A.expirations ++ file.filterMap (fun e =>
            if e.expiry > 0 ∧ e.expiry > now then some (e.key, e.expiry) else none) := by
  induction file with
  | nil =>
    intro A _ _ _ _
    refine ⟨by simp, by simp, by simp⟩
  | cons e rest ih =>
    intro A hk hfresh hok hfnd
    have hkrest : (rest.map RdbEntry.key).Nodup := (List.nodup_cons.mp hk).2
    have hknot : e.key ∉ rest.map RdbEntry.key := (List.nodup_cons.mp hk).1
    obtain ⟨hA1, hA2, hA3⟩ := hfresh e (List.mem_cons_self e rest)
    obtain ⟨g1, g2, g3⟩ := loadEntry_append A now e hA1 hA2 hA3
      (hok e (List.mem_cons_self e rest))
      (fun fl hfl => hfnd e (List.mem_cons_self e rest) fl hfl)
    have hfresh2 : ∀ x ∈ rest, alookup (A.loadEntry now e).store x.key = none ∧
        alookup (A.loadEntry now e).hashStore x.key = none ∧
        alookup (A.loadEntry now e).expirations x.key = none := by
      intro x hx
      have hxkey : x.key ≠ e.key := by
        intro hh
        exact hknot (hh ▸ List.mem_map_of_mem RdbEntry.key hx)
      obtain ⟨b1, b2, b3⟩ := hfresh x (List.mem_cons_of_mem e hx)
      have hek : ¬ e.key = x.key := fun hh => hxkey hh.symm
      refine ⟨?_, ?_, ?_⟩
      · rw [g1, alookup_append, b1]
        cases e.value with
        | str v => simp [alookup, hek]
        | hash fl => simp
      · rw [g2, alookup_append, b2]
        cases e.value with
        | str v => simp
        | hash fl => simp [alookup, hek]
      · rw [g3, alookup_append, b3]
        by_cases hexp : e.expiry > 0 ∧ e.expiry > now
        · simp [hexp, alookup, hek]
        · simp [hexp]
    obtain ⟨i1, i2, i3⟩ := ih (A.loadEntry now e) hkrest hfresh2
      (fun x hx => hok x (List.mem_cons_of_mem e hx))
      (fun x hx => hfnd x (List.mem_cons_of_mem e hx))
    simp only [List.foldl_cons]
    refine ⟨?_, ?_, ?_⟩
    · rw [i1, g1, List.append_assoc]
      congr 1
      cases hv : e.value with
      | str v => simp [List.filterMap_cons, hv]
      | hash fl => simp [List.filterMap_cons, hv]
    · rw [i2, g2, List.append_assoc]
      congr 1
      cases hv : e.value with
      | str v => simp [List.filterMap_cons, hv]
      | hash fl => simp [List.filterMap_cons, hv]
    · rw [i3, g3, List.append_assoc]
      congr 1
      by_cases hexp : e.expiry > 0 ∧ e.expiry > now
      · simp [List.filterMap_cons, hexp]
      · simp [List.filterMap_cons, hexp]

theorem filterMap_strProj_strFile (exps : List (String × Int)) (l : List (String × String)) :
    ((l.map fun p =>
        RdbEntry.mk p.1 (RdbValue.str p.2) ((alookup exps p.1).getD 0))).filterMap
      (fun e => match e.value with
        | RdbValue.str v => some (e.key, v)
        | RdbValue.hash _ => none) = l := by
  induction l with
  | nil => rfl
  | cons p t ih => simp [List.filterMap_cons, ih]

theorem filterMap_strProj_hashFile (exps : List (String × Int))
    (l : List (String × List (String × String))) :
    ((l.map fun p =>
        RdbEntry.mk p.1 (RdbValue.hash p.2) ((alookup exps p.1).getD 0))).filterMap
      (fun e => match e.value with
        | RdbValue.str v => some (e.key, v)
        | RdbValue.hash _ => none) = [] := by
  induction l with
  | nil => rfl
  | cons p t ih => simp [List.filterMap_cons, ih]

theorem filterMap_hashProj_strFile (exps : List (String × Int)) (l : List (String × String)) :
    ((l.map fun p =>
        RdbEntry.mk p.1 (RdbValue.str p.2) ((alookup exps p.1).getD 0))).filterMap
      (fun e => match e.value with
        | RdbValue.str _ => none
        | RdbValue.hash fl => some (e.key, fl)) = [] := by
  induction l with
  | nil => rfl
  | cons p t ih => simp [List.filterMap_cons, ih]

theorem filterMap_hashProj_hashFile (exps : List (String × Int))
    (l : List (String × List (String × String))) :
    ((l.map fun p =>
        RdbEntry.mk p.1 (RdbValue.hash p.2) ((alookup exps p.1).getD 0))).filterMap
      (fun e => match e.value with
        | RdbValue.str _ => none
        | RdbValue.hash fl => some (e.key, fl)) = l := by
  induction l with
  | nil => rfl
  | cons p t ih => simp [List.filterMap_cons, ih]

theorem filterMap_expProj_file {α : Type} (exps : List (String × Int)) (tL : Int)
    (mkv : α → RdbValue) (l : List (String × α)) :
    ((l.map fun p =>
        RdbEntry.mk p.1 (mkv p.2) ((alookup exps p.1).getD 0))).filterMap
      (fun e => if e.expiry > 0 ∧ e.expiry > tL then some (e.key, e.expiry) else none)
    = l.filterMap (fun p =>
        if (alookup exps p.1).getD 0 > 0 ∧ (alookup exps p.1).getD 0 > tL
        then some (p.1, (alookup exps p.1).getD 0) else none) := by
  induction l with
  | nil => rfl
  | cons p t ih =>
    by_cases hc : (alookup exps p.1).getD 0 > 0 ∧ (alookup exps p.1).getD 0 > tL
    · simp [List.filterMap_cons, hc, ih]
    · simp [List.filterMap_cons, hc, ih]

theorem alookup_expFilter {α : Type} (l : List (String × α)) (exps : List (String × Int))
    (tL : Int) (x : String) (hnd : (adom l).Nodup) :
    alookup (l.filterMap (fun p =>
        if (alookup exps p.1).getD 0 > 0 ∧ (alookup exps p.1).getD 0 > tL
        then some (p.1, (alookup exps p.1).getD 0) else none)) x
    = if x ∈ adom l then
        (match alookup exps x with
         | some e => if e > 0 ∧ e > tL then some e else none
         | none => none)
      else none := by
  induction l with
  | nil => simp [adom]
  | cons p t ih =>
    have hcons : adom (p :: t) = p.1 :: adom t := rfl
    rw [hcons, List.nodup_cons] at hnd
    have iht := ih hnd.2
    by_cases hpx : p.1 = x
    · subst hpx
      have hxnott : p.1 ∉ adom t := hnd.1
      have hmem : p.1 ∈ adom (p :: t) := by rw [hcons]; exact List.mem_cons_self _ _
      rw [if_pos hmem]
      by_cases hc : (alookup exps p.1).getD 0 > 0 ∧ (alookup exps p.1).getD 0 > tL
      · simp only [List.filterMap_cons, if_pos hc, alookup_cons, if_pos rfl]
        cases he : alookup exps p.1 with
        | none =>
          exfalso
          rw [he] at hc
          simp at hc
        | some e0 =>
          rw [he] at hc
          simp only [Option.getD_some] at hc
          simp [he, hc]
      · simp only [List.filterMap_cons, if_neg hc]
        rw [iht, if_neg hxnott]
        cases he : alookup exps p.1 with
        | none => simp
        | some e0 =>
          rw [he] at hc
          simp only [Option.getD_some] at hc
          simp [hc]
    · have hx2 : ¬ x = p.1 := fun hh => hpx hh.symm
      have hiff : x ∈ adom (p :: t) ↔ x ∈ adom t := by
        rw [hcons, List.mem_cons]
        simp [hx2]
      by_cases hc : (alookup exps p.1).getD 0 > 0 ∧ (alookup exps p.1).getD 0 > tL
      · simp only [List.filterMap_cons, if_pos hc, alookup_cons, if_neg hpx]
        rw [iht]
        by_cases hx : x ∈ adom t
        · rw [if_pos hx, if_pos (hiff.mpr hx)]
        · rw [if_neg hx, if_neg (fun hh => hx (hiff.mp hh))]
      · simp only [List.filterMap_cons, if_neg hc]
        rw [iht]
        by_cases hx : x ∈ adom t
        · rw [if_pos hx, if_pos (hiff.mpr hx)]
        · rw [if_neg hx, if_neg (fun hh => hx (hiff.mp hh))]

/-- Core of the snapshot round trip: loading a save-shaped file into any
destination reproduces the saved string and hash maps exactly, and restores
an expiration entry iff its absolute time is positive and still in the
future at load time. -/
theorem save_load_core (P D : KVStore) (tL : Int) (file : List RdbEntry)
    (hfile : file =
      (P.store.map fun p =>
        RdbEntry.mk p.1 (RdbValue.str p.2) ((alookup P.expirations p.1).getD 0))
      ++ (P.hashStore.map fun p =>
        RdbEntry.mk p.1 (RdbValue.hash p.2) ((alookup P.expirations p.1).getD 0)))
    (w1 : (adom P.store).Nodup) (w2 : (adom P.hashStore).Nodup)
    (r1 : ∀ p ∈ P.store, ∀ q ∈ P.hashStore,
      (p : String × String).1 ≠ (q : String × List (String × String)).1)
    (r2 : ∀ p ∈ P.expirations, P.live (p : String × Int).1)
    (r3 : ∀ q ∈ P.hashStore, (q : String × List (String × String)).2 ≠ [])
    (r4 : ∀ q ∈ P.hashStore, (adom (q : String × List (String × String)).2).Nodup)
    (r5 : P.liveSize ≤ MAX_KEYS) :
    (KVStore.loadFromRdb D tL file).store = P.store ∧
    (KVStore.loadFromRdb D tL file).hashStore = P.hashStore ∧
    (∀ x, alookup (KVStore.loadFromRdb D tL file).expirations x
      = (match alookup P.expirations x with
         | some e => if e > 0 ∧ e > tL then some e else none
         | none => none)) := by
  subst hfile
  have hkeys : (((P.store.map fun p =>
        RdbEntry.mk p.1 (RdbValue.str p.2) ((alookup P.expirations p.1).getD 0))
      ++ (P.hashStore.map fun p =>
        RdbEntry.mk p.1 (RdbValue.hash p.2) ((alookup P.expirations p.1).getD 0))).map
          RdbEntry.key) = adom P.store ++ adom P.hashStore := by
    rw [List.map_append, List.map_map, List.map_map]
    rfl
  have hdisj : List.Disjoint (adom P.store) (adom P.hashStore) := by
    intro x hx1 hx2
    have h1 := (mem_adom_iff_isSome _ _).mp hx1
    have h2 := (mem_adom_iff_isSome _ _).mp hx2
    cases hv1 : alookup P.store x with
    | none => rw [hv1] at h1; simp at h1
    | some v =>
      cases hv2 : alookup P.hashStore x with
      | none => rw [hv2] at h2; simp at h2
      | some fl =>
        exact r1 (x, v) (alookup_mem _ _ _ hv1) (x, fl) (alookup_mem _ _ _ hv2) rfl
  have hnodupkeys : (((P.store.map fun p =>
        RdbEntry.mk p.1 (RdbValue.str p.2) ((alookup P.expirations p.1).getD 0))
      ++ (P.hashStore.map fun p =>
        RdbEntry.mk p.1 (RdbValue.hash p.2) ((alookup P.expirations p.1).getD 0))).map
          RdbEntry.key).Nodup := by
    rw [hkeys]
    exact w1.append w2 hdisj
  have hfresh : ∀ e ∈ (P.store.map fun p =>
        RdbEntry.mk p.1 (RdbValue.str p.2) ((alookup P.expirations p.1).getD 0))
      ++ (P.hashStore.map fun p =>
        RdbEntry.mk p.1 (RdbValue.hash p.2) ((alookup P.expirations p.1).getD 0)),
      alookup KVStore.empty.store e.key = none ∧
      alookup KVStore.empty.hashStore e.key = none ∧
      alookup KVStore.empty.expirations e.key = none := fun _ _ => ⟨rfl, rfl, rfl⟩
  have hok : ∀ e ∈ (P.store.map fun p =>
        RdbEntry.mk p.1 (RdbValue.str p.2) ((alookup P.expirations p.1).getD 0))
      ++ (P.hashStore.map fun p =>
        RdbEntry.mk p.1 (RdbValue.hash p.2) ((alookup P.expirations p.1).getD 0)), e.ok := by
    intro e he
    rcases List.mem_append.mp he with hm | hm
    · obtain ⟨p, hp, rfl⟩ := List.mem_map.mp hm
      trivial
    · obtain ⟨q, hq, rfl⟩ := List.mem_map.mp hm
      exact r3 q hq
  have hfnd : ∀ e ∈ (P.store.map fun p =>
        RdbEntry.mk p.1 (RdbValue.str p.2) ((alookup P.expirations p.1).getD 0))
      ++ (P.hashStore.map fun p =>
        RdbEntry.mk p.1 (RdbValue.hash p.2) ((alookup P.expirations p.1).getD 0)),
      ∀ fl, e.value = RdbValue.hash fl → (adom fl).Nodup := by
    intro e he fl hfl
    rcases List.mem_append.mp he with hm | hm
    · obtain ⟨p, hp, rfl⟩ := List.mem_map.mp hm
      simp at hfl
    · obtain ⟨q, hq, rfl⟩ := List.mem_map.mp hm
      simp only [RdbValue.hash.injEq] at hfl
      exact hfl ▸ r4 q hq
  obtain ⟨L1, L2, L3⟩ := loadFold_append tL
    ((P.store.map fun p =>
        RdbEntry.mk p.1 (RdbValue.str p.2) ((alookup P.expirations p.1).getD 0))
      ++ (P.hashStore.map fun p =>
        RdbEntry.mk p.1 (RdbValue.hash p.2) ((alookup P.expirations p.1).getD 0)))
    KVStore.empty hnodupkeys hfresh hok hfnd
  have hstore0 : (((P.store.map fun p =>
        RdbEntry.mk p.1 (RdbValue.str p.2) ((alookup P.expirations p.1).getD 0))
      ++ (P.hashStore.map fun p =>
        RdbEntry.mk p.1 (RdbValue.hash p.2) ((alookup P.expirations p.1).getD 0))).foldl
          (fun acc x => acc.loadEntry tL x) KVStore.empty).store = P.store := by
    rw [L1, List.filterMap_append, filterMap_strProj_strFile, filterMap_strProj_hashFile]
    simp [show KVStore.empty.store = [] from rfl]
  have hhash0 : (((P.store.map fun p =>
        RdbEntry.mk p.1 (RdbValue.str p.2) ((alookup P.expirations p.1).getD 0))
      ++ (P.hashStore.map fun p =>
        RdbEntry.mk p.1 (RdbValue.hash p.2) ((alookup P.expirations p.1).getD 0))).foldl
          (fun acc x => acc.loadEntry tL x) KVStore.empty).hashStore = P.hashStore := by
    rw [L2, List.filterMap_append, filterMap_hashProj_strFile, filterMap_hashProj_hashFile]
    simp [show KVStore.empty.hashStore = [] from rfl]
  have hexp0 : ∀ x, alookup (((P.store.map fun p =>
        RdbEntry.mk p.1 (RdbValue.str p.2) ((alookup P.expirations p.1).getD 0))
      ++ (P.hashStore.map fun p =>
        RdbEntry.mk p.1 (RdbValue.hash p.2) ((alookup P.expirations p.1).getD 0))).foldl
          (fun acc x => acc.loadEntry tL x) KVStore.empty).expirations x
      = (match alookup P.expirations x with
         | some e => if e > 0 ∧ e > tL then some e else none
         | none => none) := by
    intro x
    rw [L3, List.filterMap_append, filterMap_expProj_file, filterMap_expProj_file]
    simp only [show KVStore.empty.expirations = [] from rfl, List.nil_append]
    rw [alookup_append, alookup_expFilter _ _ _ _ w1, alookup_expFilter _ _ _ _ w2]
    by_cases hx1 : x ∈ adom P.store
    · rw [if_pos hx1]
      have hx2 : x ∉ adom P.hashStore := fun hh => hdisj hx1 hh
      rw [if_neg hx2]
      cases alookup P.expirations x with
      | none => simp
      | some e0 =>
        by_cases he : e0 > 0 ∧ e0 > tL
        · simp [he]
        · simp [he]
    · rw [if_neg hx1]
      by_cases hx2 : x ∈ adom P.hashStore
      · rw [if_pos hx2]
      · rw [if_neg hx2]
        have hnone : alookup P.expirations x = none := by
          cases he : alookup P.expirations x with
          | none => rfl
          | some e0 =>
            exfalso
            have hlv := r2 (x, e0) (alookup_mem _ _ _ he)
            unfold KVStore.live at hlv
            rcases hlv with hl | hl
            · exact hx1 ((mem_adom_iff_isSome _ _).mpr hl)
            · exact hx2 ((mem_adom_iff_isSome _ _).mpr hl)
        rw [hnone]
  have hsize : (((P.store.map fun p =>
        RdbEntry.mk p.1 (RdbValue.str p.2) ((alookup P.expirations p.1).getD 0))
      ++ (P.hashStore.map fun p =>
        RdbEntry.mk p.1 (RdbValue.hash p.2) ((alookup P.expirations p.1).getD 0))).foldl
          (fun acc x => acc.loadEntry tL x) KVStore.empty).liveSize ≤ MAX_KEYS := by
    unfold KVStore.liveSize at r5 ⊢
    rw [hstore0, hhash0]
    exact r5
  have hload : KVStore.loadFromRdb D tL
      ((P.store.map fun p =>
        RdbEntry.mk p.1 (RdbValue.str p.2) ((alookup P.expirations p.1).getD 0))
      ++ (P.hashStore.map fun p =>
        RdbEntry.mk p.1 (RdbValue.hash p.2) ((alookup P.expirations p.1).getD 0)))
      = (((P.store.map fun p =>
        RdbEntry.mk p.1 (RdbValue.str p.2) ((alookup P.expirations p.1).getD 0))
      ++ (P.hashStore.map fun p =>
        RdbEntry.mk p.1 (RdbValue.hash p.2) ((alookup P.expirations p.1).getD 0))).foldl
          (fun acc x => acc.loadEntry tL x) KVStore.empty) := by
    show KVStore.evictIfNeeded _ = _
    unfold KVStore.evictIfNeeded
    exact evictLoop_noop _ _ hsize
  rw [hload]
  exact ⟨hstore0, hhash0, hexp0⟩

/-- Counterexample for C3's "dropped entirely" clause: a key saved with a
still-live expiration (absolute time 20, saved at time 10) and loaded after
that deadline (time 30) keeps its VALUE — the loader only withholds the
expiration entry — so the key still exists with TTL -1 instead of being
absent. -/
theorem c3_counterexample_expired_value_restored :
    alookup (KVStore.loadFromRdb KVStore.empty 30
      ((((KVStore.empty.set 0 "k" "v").expire 0 "k" 20).2.saveToRdb 10).1)).store "k"
        = some "v" ∧
    ((KVStore.loadFromRdb KVStore.empty 30
      ((((KVStore.empty.set 0 "k" "v").expire 0 "k" 20).2.saveToRdb 10).1)).existsKey 30 "k").1
        = true ∧
    alookup (KVStore.loadFromRdb KVStore.empty 30
      ((((KVStore.empty.set 0 "k" "v").expire 0 "k" 20).2.saveToRdb 10).1)).expirations "k"
        = none ∧
    ((KVStore.loadFromRdb KVStore.empty 30
      ((((KVStore.empty.set 0 "k" "v").expire 0 "k" 20).2.saveToRdb 10).1)).ttl 30 "k").1
        = -1 := by
  decide

/-- C3 (amended): SAVE at time tS followed by LOAD at time tL into any
destination first discards the destination entirely (the result does not
depend on it), and restores exactly the string and hash maps of the
save-time-purged store; an expiration entry is restored iff its absolute
time is positive and still in the future at load time — an entry whose
expiry has passed keeps its value and only loses its expiration, rather
than being dropped entirely. -/
theorem c3_save_load_roundtrip (S D : KVStore) (tS tL : Int)
    (h : S.wfD) (hready : S.snapshotReady) :
    KVStore.loadFromRdb D tL (S.saveToRdb tS).1
      = KVStore.loadFromRdb KVStore.empty tL (S.saveToRdb tS).1 ∧
    (KVStore.loadFromRdb D tL (S.saveToRdb tS).1).store = (S.saveToRdb tS).2.store ∧
    (KVStore.loadFromRdb D tL (S.saveToRdb tS).1).hashStore = (S.saveToRdb tS).2.hashStore ∧
    (∀ x, alookup (KVStore.loadFromRdb D tL (S.saveToRdb tS).1).expirations x
      = (match alookup (S.saveToRdb tS).2.expirations x with
         | some e => if e > 0 ∧ e > tL then some e else none
         | none => none)) := by
  have hwf : (S.saveToRdb tS).2.wf := wf_saveToRdb S tS (wfD_wf S h)
  have hrdy : (S.saveToRdb tS).2.snapshotReady := snapshotReady_saveToRdb S tS hready
  obtain ⟨w1, w2, -, -, -, -, -⟩ := hwf
  obtain ⟨r1, r2, r3, r4, r5⟩ := hrdy
  obtain ⟨h1, h2, h3⟩ :=
    save_load_core (S.saveToRdb tS).2 D tL (S.saveToRdb tS).1 rfl w1 w2 r1 r2 r3 r4 r5
  exact ⟨rfl, h1, h2, h3⟩

/-- Closed instance of the C3 round trip: one string key with a live
expiration, saved at time 10 and loaded at time 20 into a non-empty
destination. -/
theorem c3_witness :
    KVStore.wfD (((KVStore.empty.set 0 "k" "v").expire 0 "k" 100).2) ∧
    KVStore.snapshotReady (((KVStore.empty.set 0 "k" "v").expire 0 "k" 100).2) ∧
    (KVStore.loadFromRdb (KVStore.empty.set 0 "z" "zz") 20
        ((((KVStore.empty.set 0 "k" "v").expire 0 "k" 100).2.saveToRdb 10).1)
      = KVStore.loadFromRdb KVStore.empty 20
        ((((KVStore.empty.set 0 "k" "v").expire 0 "k" 100).2.saveToRdb 10).1)) ∧
    (KVStore.loadFromRdb (KVStore.empty.set 0 "z" "zz") 20
        ((((KVStore.empty.set 0 "k" "v").expire 0 "k" 100).2.saveToRdb 10).1)).store
      = ((((KVStore.empty.set 0 "k" "v").expire 0 "k" 100).2.saveToRdb 10).2).store ∧
    alookup (KVStore.loadFromRdb (KVStore.empty.set 0 "z" "zz") 20
        ((((KVStore.empty.set 0 "k" "v").expire 0 "k" 100).2.saveToRdb 10).1)).expirations "k"
      = (match alookup
            ((((KVStore.empty.set 0 "k" "v").expire 0 "k" 100).2.saveToRdb 10).2).expirations "k"
          with
         | some e => if e > 0 ∧ e > (20 : Int) then some e else none
         | none => none) := by
  refine ⟨by decide, by decide, ?_, ?_, ?_⟩
  · exact (c3_save_load_roundtrip (((KVStore.empty.set 0 "k" "v").expire 0 "k" 100).2)
      (KVStore.empty.set 0 "z" "zz") 10 20 (by decide) (by decide)).1
  · exact (c3_save_load_roundtrip (((KVStore.empty.set 0 "k" "v").expire 0 "k" 100).2)
      (KVStore.empty.set 0 "z" "zz") 10 20 (by decide) (by decide)).2.1
  · exact (c3_save_load_roundtrip (((KVStore.empty.set 0 "k" "v").expire 0 "k" 100).2)
      (KVStore.empty.set 0 "z" "zz") 10 20 (by decide) (by decide)).2.2.2 "k"
